import Mathlib

/-!
Verification development for the Messages-TG control plane
(`src/python/tg_service`).  Python source functions are shallowly embedded
as executable Lean definitions: dictionaries become association lists,
`asyncio` queues become lists, the sqlite-backed overflow store becomes a
list of (id, serialized payload) rows, and external effects (HTTP
responses, sign-in results, reconnect attempt outcomes) become explicit
oracle parameters.  The `json` module is modelled by the `Json` type below
together with `Json.dumps` (compact serialization, separators ","/":",
escaping quote, backslash, newline, tab and carriage return) and
`Json.loads` (a fuel-driven recursive-descent reader); floats and \uXXXX
escapes are outside the model, as the service's payloads contain only
strings, integers, booleans, null, arrays and objects.
-/

namespace TG

mutual

/-- Model of a JSON value (the `json.dumps` / `json.loads` domain).
Mutual with element lists and key-value member lists so that structural
recursion and induction are available. -/
inductive Json where
  | jnull : Json
  | jbool (b : Bool) : Json
  | jnum (n : Int) : Json
  | jstr (s : String) : Json
  | jarr (xs : JsonList) : Json
  | jobj (kvs : JsonKVs) : Json
deriving DecidableEq

inductive JsonList where
  | nil : JsonList
  | cons (hd : Json) (tl : JsonList) : JsonList
deriving DecidableEq

inductive JsonKVs where
  | nil : JsonKVs
  | cons (k : String) (v : Json) (tl : JsonKVs) : JsonKVs
deriving DecidableEq

end

/-- Characters that the scanner treats specially are bound to names. -/
def quoteChar : Char := '\"'

def backslashChar : Char := '\\'

def lbraceChar : Char := Char.ofNat 123

def rbraceChar : Char := Char.ofNat 125

def lbrackChar : Char := '['

def rbrackChar : Char := ']'

/-- Decimal digit character for a digit value (values ≥ 10 never occur). -/
def digitChar (d : Nat) : Char :=
  if d = 0 then '0' else if d = 1 then '1' else if d = 2 then '2'
  else if d = 3 then '3' else if d = 4 then '4' else if d = 5 then '5'
  else if d = 6 then '6' else if d = 7 then '7' else if d = 8 then '8'
  else '9'

/-- Inverse of `digitChar`: the digit value of a character, if any. -/
def digitVal (c : Char) : Option Nat :=
  if c = '0' then some 0 else if c = '1' then some 1 else if c = '2' then some 2
  else if c = '3' then some 3 else if c = '4' then some 4 else if c = '5' then some 5
  else if c = '6' then some 6 else if c = '7' then some 7 else if c = '8' then some 8
  else if c = '9' then some 9 else none

/-- Decimal digits of `n`, most significant first, accumulated onto
`acc`; `fuel` bounds the recursion depth and any `fuel ≥ n` is enough. -/
def natDigitsAux : Nat → Nat → List Nat → List Nat
  | 0, _, acc => acc
  | fuel + 1, n, acc =>
    if n = 0 then acc else natDigitsAux fuel (n / 10) ((n % 10) :: acc)
termination_by structural fuel => fuel

/-- Decimal digits of `n`, most significant first; `[0]` for zero. -/
def natDigits (n : Nat) : List Nat :=
  if n = 0 then [0] else natDigitsAux n n []

/-- Decimal rendering of a natural number, as Python's `str` produces. -/
def natChars (n : Nat) : List Char :=
  (natDigits n).map digitChar

/-- Decimal rendering of an integer (Python `str` of an `int`). -/
def intChars (n : Int) : List Char :=
  if n < 0 then '-' :: natChars n.natAbs else natChars n.natAbs

/-- Greedy digit scanner: consumes leading digits, folding them onto `a`. -/
def scanNat : List Char → Nat → Nat × List Char
  | [], a => (a, [])
  | c :: cs, a =>
    match digitVal c with
    | some d => scanNat cs (a * 10 + d)
    | none => (a, c :: cs)

/-- Reads a nonempty digit run as a natural number (Python `int(s)` core). -/
def readNat (cs : List Char) : Option (Nat × List Char) :=
  match cs with
  | [] => none
  | c :: cs' =>
    match digitVal c with
    | some d => some (scanNat cs' d)
    | none => none

/-- String-body escaping performed by `json.dumps`: quote, backslash,
newline, tab and carriage return are escaped; other characters pass
through unchanged. -/
def escChars : List Char → List Char
  | [] => []
  | c :: cs =>
    if c = quoteChar then backslashChar :: quoteChar :: escChars cs
    else if c = backslashChar then backslashChar :: backslashChar :: escChars cs
    else if c = '\n' then backslashChar :: 'n' :: escChars cs
    else if c = '\t' then backslashChar :: 't' :: escChars cs
    else if c = '\r' then backslashChar :: 'r' :: escChars cs
    else c :: escChars cs

/-- The character an escape code stands for, if the code is recognized. -/
def unescChar (c : Char) : Option Char :=
  if c = quoteChar then some quoteChar
  else if c = backslashChar then some backslashChar
  else if c = 'n' then some '\n'
  else if c = 't' then some '\t'
  else if c = 'r' then some '\r'
  else none

/-- Reads a string body up to the closing quote, undoing `escChars`. -/
def readStr : List Char → Option (List Char × List Char)
  | [] => none
  | c :: cs =>
    if c = quoteChar then some ([], cs)
    else if c = backslashChar then
      match cs with
      | [] => none
      | e :: cs' =>
        match unescChar e with
        | some u => (readStr cs').map (fun p => (u :: p.1, p.2))
        | none => none
    else (readStr cs).map (fun p => (c :: p.1, p.2))
termination_by structural cs => cs

mutual

/-- Compact serialization of a JSON value: `json.dumps` with
separators ("," and ":"), as `PersistentQueue.write` invokes it. -/
def dumpChars : Json → List Char
  | .jnull => ['n', 'u', 'l', 'l']
  | .jbool true => ['t', 'r', 'u', 'e']
  | .jbool false => ['f', 'a', 'l', 's', 'e']
  | .jnum n => intChars n
  | .jstr s => quoteChar :: (escChars s.data ++ [quoteChar])
  | .jarr .nil => [lbrackChar, rbrackChar]
  | .jarr (.cons x xs) => lbrackChar :: (dumpChars x ++ dumpElemsRest xs)
  | .jobj .nil => [lbraceChar, rbraceChar]
  | .jobj (.cons k v kvs) =>
      lbraceChar ::
        ((quoteChar :: (escChars k.data ++ (quoteChar :: ':' :: dumpChars v)))
          ++ dumpMembersRest kvs)
termination_by structural j => j

/-- Serialization of the elements after the first: "," before each, then
the closing bracket. -/
def dumpElemsRest : JsonList → List Char
  | .nil => [rbrackChar]
  | .cons x xs => ',' :: (dumpChars x ++ dumpElemsRest xs)
termination_by structural xs => xs

/-- Serialization of the members after the first: "," before each, then
the closing brace. -/
def dumpMembersRest : JsonKVs → List Char
  | .nil => [rbraceChar]
  | .cons k v kvs =>
      ',' ::
        ((quoteChar :: (escChars k.data ++ (quoteChar :: ':' :: dumpChars v)))
          ++ dumpMembersRest kvs)
termination_by structural kvs => kvs

end

/-- Serialization of one object member: quoted key, colon, value. -/
def dumpMember (k : String) (v : Json) : List Char :=
  quoteChar :: (escChars k.data ++ (quoteChar :: ':' :: dumpChars v))

mutual

/-- Fuel measure used to run the reader: number of value/element nodes. -/
def jsize : Json → Nat
  | .jnull => 1
  | .jbool _ => 1
  | .jnum _ => 1
  | .jstr _ => 1
  | .jarr xs => 1 + elsize xs
  | .jobj kvs => 1 + kvsize kvs
termination_by structural j => j

/-- Fuel bound for a nonempty element tail. -/
def elsize : JsonList → Nat
  | .nil => 0
  | .cons x xs => 1 + jsize x + elsize xs
termination_by structural xs => xs

/-- Fuel bound for a nonempty member tail. -/
def kvsize : JsonKVs → Nat
  | .nil => 0
  | .cons _ v kvs => 1 + jsize v + kvsize kvs
termination_by structural kvs => kvs

end

mutual

/-- Fuel-driven reader of one JSON value (model of the `json.loads`
grammar restricted to the values the service writes). -/
def readVal : Nat → List Char → Option (Json × List Char)
  | 0, _ => none
  | _ + 1, [] => none
  | f + 1, c :: cs =>
    if c = 'n' then
      match cs with
      | 'u' :: 'l' :: 'l' :: r => some (.jnull, r)
      | _ => none
    else if c = 't' then
      match cs with
      | 'r' :: 'u' :: 'e' :: r => some (.jbool true, r)
      | _ => none
    else if c = 'f' then
      match cs with
      | 'a' :: 'l' :: 's' :: 'e' :: r => some (.jbool false, r)
      | _ => none
    else if c = quoteChar then
      (readStr cs).map (fun p => (.jstr (String.mk p.1), p.2))
    else if c = '-' then
      (readNat cs).map (fun p => (.jnum (-(p.1 : Int)), p.2))
    else if (digitVal c).isSome then
      (readNat (c :: cs)).map (fun p => (.jnum (p.1 : Int), p.2))
    else if c = lbrackChar then
      match cs with
      | d :: r =>
        if d = rbrackChar then some (.jarr .nil, r)
        else readElems f (d :: r)
      | [] => none
    else if c = lbraceChar then
      match cs with
      | d :: r =>
        if d = rbraceChar then some (.jobj .nil, r)
        else readMembers f (d :: r)
      | [] => none
    else none
termination_by structural f => f

/-- Reads the remaining elements of a nonempty array, including the
closing bracket, returning the whole element list. -/
def readElems : Nat → List Char → Option (Json × List Char)
  | 0, _ => none
  | f + 1, cs =>
    match readVal f cs with
    | none => none
    | some (j, r) =>
      match r with
      | c :: r' =>
        if c = rbrackChar then some (.jarr (.cons j .nil), r')
        else if c = ',' then
          match readElems f r' with
          | some (.jarr tail, r'') => some (.jarr (.cons j tail), r'')
          | _ => none
        else none
      | [] => none
termination_by structural f => f

/-- Reads the remaining members of a nonempty object, including the
closing brace, returning the whole member list. -/
def readMembers : Nat → List Char → Option (Json × List Char)
  | 0, _ => none
  | f + 1, cs =>
    match cs with
    | c :: cs' =>
      if c = quoteChar then
        match readStr cs' with
        | none => none
        | some (k, r) =>
          match r with
          | ':' :: r' =>
            match readVal f r' with
            | none => none
            | some (v, r'') =>
              match r'' with
              | d :: r3 =>
                if d = rbraceChar then some (.jobj (.cons (String.mk k) v .nil), r3)
                else if d = ',' then
                  match readMembers f r3 with
                  | some (.jobj tail, r4) => some (.jobj (.cons (String.mk k) v tail), r4)
                  | _ => none
                else none
              | [] => none
          | _ => none
      else none
    | [] => none
termination_by structural f => f

end

/-- The call `json.dumps(item, separators=(",", ":"))` as a Lean `String`. -/
def Json.dumps (j : Json) : String :=
  String.mk (dumpChars j)

/-- Model of `json.loads`: reads one value, requiring full consumption. -/
def Json.loads (s : String) : Option Json :=
  match readVal (s.data.length + 1) s.data with
  | some (j, []) => some j
  | _ => none

/-- Lookup of `dict.get(key)` over the members of a JSON object. -/
def Json.getKVs : JsonKVs → String → Option Json
  | .nil, _ => none
  | .cons k v t, key => if k = key then some v else Json.getKVs t key

/-- Lookup `dict.get(key)` on a JSON value; `none` models Python `None`, both for
a missing key and for a non-dict receiver (the service only calls this on
payload dicts). -/
def Json.get (j : Json) (key : String) : Option Json :=
  match j with
  | .jobj kvs => Json.getKVs kvs key
  | _ => none

/-- Whether the value is a JSON object (`isinstance(x, dict)`). -/
def Json.isObj : Json → Bool
  | .jobj _ => true
  | _ => false

/-- Python truthiness of a JSON value (`bool(x)`). -/
def Json.truthy : Json → Bool
  | .jnull => false
  | .jbool b => b
  | .jnum n => decide (n ≠ 0)
  | .jstr s => decide (s ≠ "")
  | .jarr .nil => false
  | .jarr (.cons _ _) => true
  | .jobj .nil => false
  | .jobj (.cons _ _ _) => true

/-- Python `str(n)` for a natural number (row ids are nonnegative). -/
def strOfNat (n : Nat) : String :=
  String.mk (natChars n)

/-- Python `int(s)` on a decimal digit string; `none` models the `ValueError`
branch of `PersistentQueue.delete` (only digit strings occur as ids). -/
def natOfStr (s : String) : Option Nat :=
  match readNat s.data with
  | some (n, []) => some n
  | _ => none

/-- The sqlite-backed Overflow Store (`persistent_queue.py`): the
`queue` table is an append-ordered list of
(AUTOINCREMENT id, serialized payload TEXT) rows plus the next
autoincrement value.  Insertion order equals id order. -/
structure PQueue where
  nextId : Nat
  rows : List (Nat × String)
deriving DecidableEq

/-- A fresh database: AUTOINCREMENT starts at 1, no rows. -/
def PQueue.empty : PQueue := ⟨1, []⟩

/-- Invariant maintained by every operation: row ids strictly increase in
insertion order and stay below the next autoincrement value. -/
def PQueue.WF (q : PQueue) : Prop :=
  q.rows.Chain' (fun a b => a.1 < b.1) ∧ ∀ r ∈ q.rows, r.1 < q.nextId

instance (q : PQueue) : Decidable q.WF := by
  unfold PQueue.WF
  infer_instance

/-- Model of `PersistentQueue.write`: serialize the payload with `json.dumps`,
INSERT it, commit, and return `str(cur.lastrowid)`. -/
def PQueue.write (q : PQueue) (item : Json) : String × PQueue :=
  (strOfNat q.nextId,
    ⟨q.nextId + 1, q.rows ++ [(q.nextId, Json.dumps item)]⟩)

/-- Model of `PersistentQueue.read_all`: the oldest 100 rows by id, each payload
parsed with `json.loads`; unparsable rows are skipped. -/
def PQueue.read_all (q : PQueue) : List (String × Json) :=
  (q.rows.take 100).filterMap
    (fun r => (Json.loads r.2).map (fun j => (strOfNat r.1, j)))

/-- Model of `PersistentQueue.delete`: parse the handle back to an id and DELETE
the row; a handle that is not an integer is ignored. -/
def PQueue.delete (q : PQueue) (handle : String) : PQueue :=
  match natOfStr handle with
  | none => q
  | some i => ⟨q.nextId, q.rows.filter (fun r => decide (r.1 ≠ i))⟩

/-- State of `TelegramService` relevant to the sync pipeline
(`service.py`): the remote base url, whether an asyncio loop is running
(`asyncio.get_running_loop()` succeeds), the bounded in-memory queue
(`None` until first use), the number of drain-worker tasks, the
overflow-drain task flag, the Overflow Store, the rate limiter timestamp
`_last_persistent_queue_notice_ts` and the current `time.monotonic()`
clock. -/
structure SyncState where
  convexUrl : String
  loopRunning : Bool
  syncQueue : Option (List Json)
  workerTasks : Nat
  pqWorkerTask : Bool
  pq : PQueue
  lastPersistentQueueNoticeTs : Nat
  now : Nat
deriving DecidableEq

/-- Model of `TelegramService.ensure_sync_workers`: lazily create the queue
(capacity 2000), the 4 drain workers, and the overflow-drain task, only
when a remote endpoint is configured and an event loop is running. -/
def ensureSyncWorkers (s : SyncState) : SyncState :=
  if s.convexUrl = "" then s
  else if s.syncQueue.isSome ∧ s.workerTasks ≠ 0 then s
  else if ¬s.loopRunning then s
  else
    { s with
      syncQueue := some (s.syncQueue.getD [])
      workerTasks := if s.workerTasks = 0 then 4 else s.workerTasks
      pqWorkerTask := true }

/-- Model of `TelegramService.enqueue_sync_message`: ensure workers, then
non-blocking put; on `QueueFull`, durable write to the Overflow Store and
a rate-limited (one per 5 s) "buffering to disk" notice.  Returns the
Python return value, the next state, and whether the notice fired. -/
def enqueueSyncMessage (s : SyncState) (payload : Json) :
    Bool × SyncState × Bool :=
  match (ensureSyncWorkers s).syncQueue with
  | none => (false, ensureSyncWorkers s, false)
  | some q =>
    if q.length < 2000 then
      (true, { ensureSyncWorkers s with syncQueue := some (q ++ [payload]) },
        false)
    else if 5 ≤ s.now - s.lastPersistentQueueNoticeTs then
      (true, { ensureSyncWorkers s with
        pq := ((ensureSyncWorkers s).pq.write payload).2
        lastPersistentQueueNoticeTs := s.now }, true)
    else
      (true, { ensureSyncWorkers s with
        pq := ((ensureSyncWorkers s).pq.write payload).2 }, false)

/-- Result of one `http_client.post` to the mutation endpoint, as seen by
`sync_messages`: an HTTP status with the parsed body (`none` when
`resp.json()` raises), a timeout, or any other exception. -/
inductive PostResult where
  | status (code : Nat) (body : Option Json)
  | timeout
  | exn (msg : String)

/-- Notification kinds emitted by `sync_messages` (message text beyond
the status code is not tracked). -/
inductive SyncNotif where
  | syncSaved
  | convexError (code : Nat)
  | timeoutError
  | syncExn (msg : String)
deriving DecidableEq

/-- Whether the notification has `type: error`. -/
def SyncNotif.isError : SyncNotif → Bool
  | .syncSaved => false
  | _ => true

/-- What one call of `sync_messages` did: number of HTTP posts, the
backoff sleeps in order, the notifications, and the filtered batch that
was posted (`none` when the function returned before any post). -/
structure SyncOutcome where
  requests : Nat
  sleeps : List Nat
  notifs : List SyncNotif
  sentBatch : Option (List Json)
deriving DecidableEq

/-- The pre-transmission filter of `sync_messages`: payloads whose
`peer_id` equals the reserved system-notices id "777000" are dropped. -/
def syncFiltered (msgs : List Json) : List Json :=
  msgs.filter (fun m => decide (¬m.get "peer_id" = some (.jstr "777000")))

/-- Model of `_unwrap_value` on a parsed 200 body. -/
def unwrapValue (body : Json) : Option Json :=
  match body with
  | .jobj _ =>
    if body.get "status" = some (.jstr "success") then body.get "value"
    else if (body.get "value").isSome ∧ (body.get "status").isNone then
      body.get "value"
    else some body
  | _ => none

/-- Conversion of a JsonList back to a Lean list. -/
def JsonList.toList : JsonList → List Json
  | .nil => []
  | .cons x xs => x :: JsonList.toList xs

/-- Conversion of a Lean list of values into a JSON array node. -/
def jsonArrOf : List Json → JsonList
  | [] => .nil
  | x :: xs => .cons x (jsonArrOf xs)

/-- Model of `_to_ingest_args`: renames the payload dict's snake_case keys to the
wire schema (required-key access is modelled as get-or-null; the service
only enqueues complete payloads). -/
def toIngestArgs (m : Json) : Json :=
  let g := fun (k : String) => (m.get k).getD .jnull
  .jobj (.cons "accountId" (g "account_id")
    (.cons "peerId" (g "peer_id")
    (.cons "peerType" (g "peer_type")
    (.cons "name" (g "name")
    (.cons "username" (g "username")
    (.cons "telegramId" (g "telegram_id")
    (.cons "text" (g "text")
    (.cons "fromId" (g "from_id")
    (.cons "fromName" (g "from_name")
    (.cons "isOutgoing" (g "is_outgoing")
    (.cons "timestamp" (g "timestamp")
    (.cons "mediaType" (g "media_type")
    (.cons "replyToId" (g "reply_to_id")
    (.cons "isBot" ((m.get "is_bot").getD (.jbool false))
    .nil))))))))))))))

/-- The mutation request body built before the retry loop. -/
def mutationBody (filtered : List Json) : Json :=
  .jobj (.cons "path" (.jstr "messages:batchIngest")
    (.cons "args" (.jobj (.cons "messages"
        (.jarr (jsonArrOf (filtered.map toIngestArgs))) .nil))
    (.cons "format" (.jstr "json") .nil)))

/-- Notifications of the `status_code == 200` branch of `sync_messages`:
a body that fails to parse raises into the generic handler; otherwise the
saved/deduped indicators decide whether a sync notification fires. -/
def sync200Notifs (filtered : List Json) (body : Option Json) :
    List SyncNotif :=
  match body with
  | none => [.syncExn "json"]
  | some b =>
    match unwrapValue b with
    | none => []
    | some v =>
      match filtered with
      | [m] =>
        if v.get "saved" = some (.jbool true) then [.syncSaved] else []
      | _ =>
        match v.get "savedCount" with
        | some (.jnum _) => [.syncSaved]
        | _ => []

/-- The retry loop of `sync_messages` (`for attempt in range(3)`),
driven by the post-outcome oracle.  `remaining` is the number of loop
iterations left. -/
def syncGo (oracle : Nat → PostResult) (filtered : List Json) :
    Nat → Nat → Nat → List Nat → SyncOutcome
  | _, 0, requests, sleeps => ⟨requests, sleeps, [], some filtered⟩
  | attempt, r + 1, requests, sleeps =>
    match oracle attempt with
    | .status code body =>
      if code = 200 then
        ⟨requests + 1, sleeps, sync200Notifs filtered body, some filtered⟩
      else if 500 ≤ code ∧ attempt < 2 then
        syncGo oracle filtered (attempt + 1) r (requests + 1)
          (sleeps ++ [2 ^ attempt])
      else ⟨requests + 1, sleeps, [.convexError code], some filtered⟩
    | .timeout =>
      if attempt < 2 then
        syncGo oracle filtered (attempt + 1) r (requests + 1)
          (sleeps ++ [2 ^ attempt])
      else ⟨requests + 1, sleeps, [.timeoutError], some filtered⟩
    | .exn msg => ⟨requests + 1, sleeps, [.syncExn msg], some filtered⟩

/-- Model of `sync_messages` (`convex_sync.py`): drop system-notices payloads, do
nothing when nothing remains or no endpoint is configured, otherwise run
the bounded retry loop (`max_retries = 3`). -/
def syncMessages (convexUrl : String) (msgs : List Json)
    (oracle : Nat → PostResult) : SyncOutcome :=
  if convexUrl = "" then ⟨0, [], [], none⟩
  else
    let filtered := syncFiltered msgs
    if filtered.isEmpty then ⟨0, [], [], none⟩
    else syncGo oracle filtered 0 3 0 []

/-- Model of `sync_message` (singular): the wrapper used by `_sync_worker` for
every payload popped from the queue, on both the direct path and the
overflow-replay path. -/
def syncMessageSingle (convexUrl : String) (item : Json)
    (oracle : Nat → PostResult) : SyncOutcome :=
  syncMessages convexUrl [item] oracle

/-- The `AccountPolicy` flags as produced by
`TelegramService.get_account_message_filters`. -/
structure Filters where
  saveMessages : Bool
  saveFromChannels : Bool
  saveFromBots : Bool
  saveFromPrivate : Bool
  saveFromGroups : Bool
deriving DecidableEq

/-- Model of `get_account_message_filters`: read each flag from the stored
settings dict with `bool(settings.get(key, default))`; a falsy stored
settings value acts like an absent one (`settings or ... `). -/
def getAccountMessageFilters (storedSettings : Option Json) : Filters :=
  let settings : Json :=
    match storedSettings with
    | some st => if st.truthy then st else .jobj .nil
    | none => .jobj .nil
  let g := fun (k : String) (dflt : Bool) =>
    match settings.get k with
    | some v => v.truthy
    | none => dflt
  ⟨g "saveMessages" true, g "saveFromChannels" false, g "saveFromBots" false,
    g "saveFromPrivate" true, g "saveFromGroups" false⟩

/-- The chat object resolved by `event.get_chat()`, as classified by
`get_peer_info` (`mappers.py`). -/
inductive PeerChat where
  | channelBroadcast
  | channelMega
  | groupChat
  | userChat (bot : Bool)
  | unknownChat
deriving DecidableEq

/-- The sender resolved by `message.get_sender()`, as classified by
`get_sender_info` (`mappers.py`). -/
inductive SenderInfo where
  | noSender
  | userSender (bot : Bool)
  | otherSender
deriving DecidableEq

/-- A new-message event: the raw flags read by the pre-filter plus the
resolved classification read by the post-filter. -/
structure Event where
  isPrivate : Bool
  isGroup : Bool
  isChannel : Bool
  chat : PeerChat
  viaBot : Bool
  sender : SenderInfo
deriving DecidableEq

/-- The peer-type string of `get_peer_info`. -/
def peerTypeOf : PeerChat → String
  | .channelBroadcast => "channel"
  | .channelMega => "chat"
  | .groupChat => "chat"
  | .userChat _ => "user"
  | .unknownChat => "user"

/-- The bot flag of `get_peer_info` (true only for a bot user chat). -/
def chatBotOf : PeerChat → Bool
  | .userChat b => b
  | _ => false

/-- The bot flag of `get_sender_info`. -/
def senderBotOf : SenderInfo → Bool
  | .userSender b => b
  | _ => false

/-- Model of `TelegramService.should_handle_new_message`: the pre-filter passed to
`events.NewMessage(func=...)`. -/
def shouldHandleNewMessage (f : Filters) (e : Event) : Bool :=
  if ¬f.saveMessages then false
  else if e.isPrivate then f.saveFromPrivate || f.saveFromBots
  else if e.isGroup then f.saveFromGroups
  else if e.isChannel ∧ ¬e.isGroup then f.saveFromChannels
  else if e.isChannel then f.saveFromGroups
  else true

/-- The stricter post-classification checks of `handle_new_message`
(`handlers.py`, after `get_peer_info` and `get_sender_info`). -/
def postClassificationFilter (f : Filters) (e : Event) : Bool :=
  let pt := peerTypeOf e.chat
  if pt = "user" ∧ ¬(f.saveFromPrivate || f.saveFromBots) then false
  else if pt = "chat" ∧ ¬f.saveFromGroups then false
  else if pt = "channel" ∧ ¬f.saveFromChannels then false
  else
    let isBot := chatBotOf e.chat || e.viaBot || senderBotOf e.sender
    if isBot ∧ ¬f.saveFromBots then false
    else if pt = "user" ∧ ¬senderBotOf e.sender ∧ ¬f.saveFromPrivate then false
    else true

/-- The body of `handle_new_message` up to the enqueue: the re-checked
event flags followed by the post-classification checks. -/
def handleNewMessageAccepts (f : Filters) (e : Event) : Bool :=
  if ¬f.saveMessages then false
  else if e.isPrivate ∧ ¬(f.saveFromPrivate || f.saveFromBots) then false
  else if ¬e.isPrivate ∧ e.isGroup ∧ ¬f.saveFromGroups then false
  else if ¬e.isPrivate ∧ ¬e.isGroup ∧ e.isChannel ∧ ¬f.saveFromChannels then
    false
  else postClassificationFilter f e

/-- An event is mirrored only when the subscription-time pre-filter lets
the handler run and the handler body reaches the enqueue. -/
def eventSynced (f : Filters) (e : Event) : Bool :=
  shouldHandleNewMessage f e && handleNewMessageAccepts f e

/-- Outcome of one reconnection attempt body (`_reconnect_client` loop):
the attempt completes, `is_user_authorized()` returns False, or some step
raises. -/
inductive AttemptOutcome where
  | ok
  | unauthorized
  | err (msg : String)
deriving DecidableEq

/-- How `_reconnect_client` ended. -/
inductive ReconnectEnd where
  | noSessionString
  | accountRemoved
  | sessionExpired
  | reconnected
  | exhausted
deriving DecidableEq

/-- Notifications `_reconnect_client` can write. -/
inductive ReconnectNotif where
  | sessionExpiredError
  | attemptFailed (attempt : Nat)
  | reconnectedLog
  | terminalFailure
deriving DecidableEq

/-- Inputs of `_reconnect_client` for one account: the saved credential
string, whether the account already has a client in `self.clients`,
whether the account is still in `self.clients` at the check of attempt
`n` (false models a concurrent `disconnect`), and each attempt's
outcome. -/
structure ReconnectEnv where
  sessionString : Option String
  clientsHas : Bool
  present : Nat → Bool
  outcome : Nat → AttemptOutcome

/-- Trace of one `_reconnect_client` run: attempts entered, the sleeps
(2^attempt, slept at the start of each attempt), the ending, the
notifications, and whether `self.clients` still holds the account
afterwards. -/
structure ReconnectResult where
  attemptsStarted : Nat
  delays : List Nat
  ending : ReconnectEnd
  notifs : List ReconnectNotif
  clientsHasAfter : Bool
deriving DecidableEq

/-- The `for attempt in range(max_attempts)` loop of
`_reconnect_client`. -/
def reconnectGo (env : ReconnectEnv) :
    Nat → Nat → List Nat → List ReconnectNotif → ReconnectResult
  | attempt, 0, delays, notifs =>
    ⟨attempt, delays, .exhausted, notifs ++ [.terminalFailure], true⟩
  | attempt, r + 1, delays, notifs =>
    if ¬env.present attempt then
      ⟨attempt, delays, .accountRemoved, notifs, false⟩
    else
      match env.outcome attempt with
      | .ok =>
        ⟨attempt + 1, delays ++ [2 ^ attempt], .reconnected,
          notifs ++ [.reconnectedLog], true⟩
      | .unauthorized =>
        ⟨attempt + 1, delays ++ [2 ^ attempt], .sessionExpired,
          notifs ++ [.sessionExpiredError], true⟩
      | .err _ =>
        reconnectGo env (attempt + 1) r (delays ++ [2 ^ attempt])
          (notifs ++ [.attemptFailed attempt])

/-- Model of `TelegramService._reconnect_client` with the default
`max_attempts = 5`: return immediately without a credential string;
otherwise ensure a client handle exists in `self.clients` and run the
attempt loop.  The loop never removes the `self.clients` entry. -/
def reconnectClient (env : ReconnectEnv) : ReconnectResult :=
  match env.sessionString with
  | none => ⟨0, [], .noSessionString, [], env.clientsHas⟩
  | some _ => reconnectGo env 0 5 [] []

/-- Outcome of one policy-refresh query
(`_refresh_account_settings`): the post raises, or a status with its
parsed body (`none` when `resp.json()` raises). -/
inductive QueryOutcome where
  | exn
  | status (code : Nat) (body : Option Json)

/-- Per-account refresh state: the stored `AccountPolicy` dict and the
`_last_settings_refresh_error_ts` entry (0.0 when absent). -/
structure RefreshState where
  settings : Option Json
  lastErrTs : Nat
deriving DecidableEq

/-- Whether the query outcome takes the error path of
`_refresh_account_settings` (non-200 raises `ValueError`, a body that
fails to parse raises, a transport error raises). -/
def QueryOutcome.failed : QueryOutcome → Bool
  | .exn => true
  | .status code body => decide (code ≠ 200) || body.isNone

/-- The `value` extraction of `_refresh_account_settings`: for a dict
body both branches read `body.get("value")`; a non-dict body leaves
`value = None`. -/
def extractSettingsValue (body : Json) : Option Json :=
  if body.isObj then body.get "value" else none

/-- The `except Exception` branch of `_refresh_account_settings`: emit
the error notification only when 60 s have passed since the last one,
recording the emission time. -/
def refreshErrorPath (st : RefreshState) (now : Nat) : RefreshState × Bool :=
  if 60 ≤ now - st.lastErrTs then ({ st with lastErrTs := now }, true)
  else (st, false)

/-- Model of `TelegramService._refresh_account_settings` for one account: on
success with a dict value, replace the stored policy; on any failure keep
it and emit at most one error notification per 60 s window.  Returns the
next state and whether the notification fired. -/
def refreshAccountSettings (convexUrl : String) (st : RefreshState)
    (now : Nat) (o : QueryOutcome) : RefreshState × Bool :=
  if convexUrl = "" then (st, false)
  else
    match o with
    | .exn => refreshErrorPath st now
    | .status code body =>
      if code ≠ 200 then refreshErrorPath st now
      else
        match body with
        | none => refreshErrorPath st now
        | some b =>
          match extractSettingsValue b with
          | some v => if v.isObj then ({ st with settings := some v }, false)
              else (st, false)
          | none => (st, false)

/-- A run of the refresh loop: fold `_refresh_account_settings` over a
sequence of (monotonic time, outcome) events, collecting the times at
which the error notification fired. -/
def refreshRun (convexUrl : String) :
    List (Nat × QueryOutcome) → RefreshState → RefreshState × List Nat
  | [], st => (st, [])
  | (t, o) :: evs, st =>
    ((refreshRun convexUrl evs (refreshAccountSettings convexUrl st t o).1).1,
      (if (refreshAccountSettings convexUrl st t o).2 then [t] else [])
        ++ (refreshRun convexUrl evs
            (refreshAccountSettings convexUrl st t o).1).2)

/-- A JSON-RPC request object (`{method, params?, id}`); `id` is `null`
when the key is absent (`request.get("id")` yields `None`). -/
structure Request where
  method : Option String
  id : Json
deriving DecidableEq

/-- What `json.loads(line)` produced for one input line. -/
inductive ParsedLine where
  | notJson
  | nonObjectJson
  | object (r : Request)
deriving DecidableEq

/-- What a service-method call did when awaited. -/
inductive ExecOutcome where
  | ok (v : Json)
  | exn (msg : String)

/-- Body of a JSON-RPC response. -/
inductive RespBody where
  | result (v : Json)
  | rpcError (code : Int) (msg : String)
deriving DecidableEq

/-- A JSON-RPC response as written by `write_jsonrpc_message`. -/
structure Response where
  id : Json
  body : RespBody
deriving DecidableEq

/-- The service methods dispatched through `await service.<m>(**params)`
in `process_request` (`ping` is answered inline). -/
def knownMethods : List String :=
  ["login", "verify_code", "connect_with_session", "disconnect",
    "get_dialogs", "fetch_messages", "send_message"]

/-- Model of `process_request` (`rpc.py`): one response per line, except that a
line whose JSON is not an object raises `AttributeError` at
`request.get("method")`, outside both handlers, and no response is
written. -/
def processRequest (line : ParsedLine) (exec : String → ExecOutcome) :
    Option Response :=
  match line with
  | .notJson => some ⟨.jnull, .rpcError (-32700) "Parse error"⟩
  | .nonObjectJson => none
  | .object r =>
    match r.method with
    | some m =>
      if m = "ping" then
        some ⟨r.id, .result (.jobj (.cons "pong" (.jbool true) .nil))⟩
      else if knownMethods.contains m then
        match exec m with
        | .ok v => some ⟨r.id, .result v⟩
        | .exn msg => some ⟨r.id, .rpcError (-32000) msg⟩
      else some ⟨r.id, .rpcError (-32601) "Method not found"⟩
    | none => some ⟨r.id, .rpcError (-32601) "Method not found"⟩

/-- Association-list lookup for the service's per-account dicts. -/
def lookupA {α : Type} (l : List (String × α)) (k : String) : Option α :=
  (l.find? (fun p => p.1 == k)).map Prod.snd

/-- Removal `del d[k]` of a key binding. -/
def removeA {α : Type} (l : List (String × α)) (k : String) :
    List (String × α) :=
  l.filter (fun p => !(p.1 == k))

/-- Assignment `d[k] = v` (replace any previous binding). -/
def insertA {α : Type} (l : List (String × α)) (k : String) (v : α) :
    List (String × α) :=
  removeA l k ++ [(k, v)]

/-- A `PendingLogin` entry (client handle omitted; it carries no state
the claims inspect). -/
structure PendingLogin where
  phone : String
  phoneCodeHash : String
deriving DecidableEq

/-- How `client.sign_in(phone, code, ...)` ended: success, an exception
whose text marks a second-factor requirement, or any other exception. -/
inductive SignInOutcome where
  | ok
  | needsSecondFactor
  | failed (msg : String)
deriving DecidableEq

/-- The maps of `TelegramService` touched by `verify_code`. -/
structure SvcState where
  clients : List String
  sessionStrings : List (String × String)
  pendingLogins : List (String × PendingLogin)
  handlersRegistered : List String
deriving DecidableEq

/-- The success payload of `verify_code`. -/
structure VerifySuccess where
  sessionString : String
  name : String
  username : Option String
  userId : String
deriving DecidableEq

/-- The two non-raising results of `verify_code`. -/
inductive VerifyResult where
  | needs2fa
  | success (v : VerifySuccess)
deriving DecidableEq

/-- External data consumed by `verify_code` after `sign_in`: the
password sign-in outcome (used only when a password is supplied), the
saved credential string, and the `get_me` fields. -/
structure VerifyEnv where
  signIn : SignInOutcome
  passwordSignIn : Option String
  sessionString : String
  meName : String
  meUsername : Option String
  meId : Nat

/-- The post-authentication tail of `verify_code`: materialize the
Session, store the credential string, drop the PendingLogin, register
handlers, and build the success payload (policy loading and
notifications do not touch these maps). -/
def verifySuccessTail (st : SvcState) (accountId : String)
    (env : VerifyEnv) : VerifyResult × SvcState :=
  (.success ⟨env.sessionString, env.meName, env.meUsername,
      strOfNat env.meId⟩,
    { clients :=
        if st.clients.contains accountId then st.clients
        else st.clients ++ [accountId]
      sessionStrings := insertA st.sessionStrings accountId env.sessionString
      pendingLogins := removeA st.pendingLogins accountId
      handlersRegistered :=
        if st.handlersRegistered.contains accountId then st.handlersRegistered
        else st.handlersRegistered ++ [accountId] })

/-- Model of `TelegramService.verify_code`: raise without a PendingLogin;
otherwise complete sign-in, answering `{needs_2fa: true}` — with every
map untouched — when a second factor is required and no password was
given. -/
def verifyCode (st : SvcState) (accountId : String)
    (password : Option String) (env : VerifyEnv) :
    Except String (VerifyResult × SvcState) :=
  match lookupA st.pendingLogins accountId with
  | none => .error "No pending login for this account"
  | some _ =>
    match env.signIn with
    | .failed msg => .error msg
    | .needsSecondFactor =>
      match password with
      | none => .ok (.needs2fa, st)
      | some _ =>
        match env.passwordSignIn with
        | some msg => .error msg
        | none => .ok (verifySuccessTail st accountId env)
    | .ok => .ok (verifySuccessTail st accountId env)

/-- The round-trip behaviour claimed for the Overflow Store: after a
write, a read returns the old entries followed by the new payload under
the returned handle, the id invariant is preserved, and deleting the
returned handle removes exactly the new row, leaving the other entries
and their reads intact. -/
def overflowRoundtripSpec (q : PQueue) (p : Json) : Prop :=
  (((q.write p).2).read_all = q.read_all ++ [((q.write p).1, p)])
  ∧ ((q.write p).2).WF
  ∧ (((q.write p).2).delete (q.write p).1).rows = q.rows
  ∧ (((q.write p).2).delete (q.write p).1).read_all = q.read_all

/-- The response shapes of `process_request` on lines other than
non-object JSON: parse failure answers id null with code -32700; an unknown or
missing method answers -32601 with the request id; an exception from a
dispatched service method answers -32000 with its message; in all these
cases exactly one response is produced. -/
def processRequestShapeSpec (line : ParsedLine)
    (exec : String → ExecOutcome) : Prop :=
  (processRequest line exec).isSome = true
  ∧ (line = .notJson →
      processRequest line exec
        = some ⟨.jnull, .rpcError (-32700) "Parse error"⟩)
  ∧ (∀ r m, line = .object r → r.method = some m → m ≠ "ping" →
      knownMethods.contains m = false →
      processRequest line exec
        = some ⟨r.id, .rpcError (-32601) "Method not found"⟩)
  ∧ (∀ r, line = .object r → r.method = none →
      processRequest line exec
        = some ⟨r.id, .rpcError (-32601) "Method not found"⟩)
  ∧ (∀ r m msg, line = .object r → r.method = some m →
      knownMethods.contains m = true → exec m = .exn msg →
      processRequest line exec = some ⟨r.id, .rpcError (-32000) msg⟩)

/-- What `enqueue_sync_message` guarantees when the queue exists (or can
be created): it returns True, and the payload is either appended to the
in-memory queue (store untouched) or durably appended to the Overflow
Store (queue untouched) — never discarded. -/
def enqueueNeverDiscardsSpec (s : SyncState) (p : Json) : Prop :=
  (enqueueSyncMessage s p).1 = true
  ∧ ∀ q, (ensureSyncWorkers s).syncQueue = some q →
      (q.length < 2000 →
        (enqueueSyncMessage s p).2.1.syncQueue = some (q ++ [p])
        ∧ (enqueueSyncMessage s p).2.1.pq = s.pq)
      ∧ (¬q.length < 2000 →
        (enqueueSyncMessage s p).2.1.pq.rows
          = s.pq.rows ++ [(s.pq.nextId, Json.dumps p)]
        ∧ (enqueueSyncMessage s p).2.1.syncQueue
          = (ensureSyncWorkers s).syncQueue)

/-- Whether the post outcome is an HTTP 200. -/
def PostResult.is200 : PostResult → Bool
  | .status code _ => decide (code = 200)
  | _ => false

/-- Whether the outcome is one `sync_messages` retries on: a 5xx status
or a timeout. -/
def PostResult.retryable : PostResult → Bool
  | .status code _ => decide (500 ≤ code)
  | .timeout => true
  | .exn _ => false

/-- Number of `type: error` notifications in a list. -/
def errCount (l : List SyncNotif) : Nat :=
  (l.filter (fun n => n.isError)).length

/-- The filtering guarantee claimed for delivery: whatever batch is
posted contains no system-notices payload; if every payload carries the
reserved peer id, no HTTP request happens at all — including on the
single-payload path every drain worker uses. -/
def syncSystemNoticesSpec (url : String) (msgs : List Json)
    (oracle : Nat → PostResult) : Prop :=
  (∀ b, (syncMessages url msgs oracle).sentBatch = some b →
    ∀ m ∈ b, ¬(m.get "peer_id" = some (.jstr "777000")))
  ∧ ((∀ m ∈ msgs, m.get "peer_id" = some (.jstr "777000")) →
      (syncMessages url msgs oracle).requests = 0
      ∧ (syncMessages url msgs oracle).sentBatch = none)
  ∧ (∀ item, item.get "peer_id" = some (.jstr "777000") →
      (syncMessageSingle url item oracle).requests = 0)

/-- The retry discipline claimed for delivery: at most 3 posts in total;
200 stops immediately; a non-retryable non-200 outcome stops after one
post with exactly one error notification; a retryable outcome backs off
2^attempt seconds and retries, at most twice; exhausted retries surface
exactly one error notification. -/
def syncRetrySpec (url : String) (msgs : List Json)
    (oracle : Nat → PostResult) : Prop :=
  (syncMessages url msgs oracle).requests ≤ 3
  ∧ (PostResult.is200 (oracle 0) = true →
      (syncMessages url msgs oracle).requests = 1
      ∧ (syncMessages url msgs oracle).sleeps = [])
  ∧ (PostResult.retryable (oracle 0) = false →
      PostResult.is200 (oracle 0) = false →
      (syncMessages url msgs oracle).requests = 1
      ∧ (syncMessages url msgs oracle).sleeps = []
      ∧ errCount (syncMessages url msgs oracle).notifs = 1)
  ∧ (PostResult.retryable (oracle 0) = true →
      PostResult.is200 (oracle 1) = true →
      (syncMessages url msgs oracle).requests = 2
      ∧ (syncMessages url msgs oracle).sleeps = [1])
  ∧ (PostResult.retryable (oracle 0) = true →
      PostResult.retryable (oracle 1) = false →
      PostResult.is200 (oracle 1) = false →
      (syncMessages url msgs oracle).requests = 2
      ∧ (syncMessages url msgs oracle).sleeps = [1]
      ∧ errCount (syncMessages url msgs oracle).notifs = 1)
  ∧ (PostResult.retryable (oracle 0) = true →
      PostResult.retryable (oracle 1) = true →
      PostResult.is200 (oracle 2) = true →
      (syncMessages url msgs oracle).requests = 3
      ∧ (syncMessages url msgs oracle).sleeps = [1, 2])
  ∧ (PostResult.retryable (oracle 0) = true →
      PostResult.retryable (oracle 1) = true →
      PostResult.is200 (oracle 2) = false →
      (syncMessages url msgs oracle).requests = 3
      ∧ (syncMessages url msgs oracle).sleeps = [1, 2]
      ∧ errCount (syncMessages url msgs oracle).notifs = 1)

deriving instance Fintype for PeerChat

deriving instance Fintype for SenderInfo

deriving instance Fintype for Event

deriving instance Fintype for Filters

/-- The account policy named by the claim: mirror messages, private chats
only — no groups, channels or bots. -/
def policyC3 : Filters := ⟨true, false, false, true, false⟩

/-- The two-stage filtering behaviour claimed for new-message events
under `policyC3`: a private non-bot message is mirrored; a group message
is rejected; a private message involving a bot (bot peer, bot sender, or
sent via bot) is rejected; and an event is mirrored only when both the
pre-filter and the post-classification filter pass. -/
def twoStageFilterSpec : Prop :=
  eventSynced policyC3
      ⟨true, false, false, .userChat false, false, .userSender false⟩ = true
  ∧ (∀ e : Event, e.isPrivate = false → e.isGroup = true →
      eventSynced policyC3 e = false)
  ∧ (∀ e : Event, e.isPrivate = true → peerTypeOf e.chat = "user" →
      (chatBotOf e.chat || e.viaBot || senderBotOf e.sender) = true →
      eventSynced policyC3 e = false)
  ∧ (∀ (f : Filters) (e : Event), eventSynced f e = true →
      shouldHandleNewMessage f e = true ∧ postClassificationFilter f e = true)

/-- The bounded-reconnection behaviour claimed for `_reconnect_client`:
at most 5 attempts; the sleep before attempt n is 2^n; an unauthorized
report at attempt k (after k failed attempts) aborts immediately with the
"session expired" notification; five failures end with the terminal
notification. -/
def reconnectBoundedSpec (env : ReconnectEnv) : Prop :=
  (reconnectClient env).attemptsStarted ≤ 5
  ∧ (reconnectClient env).delays
      = (List.range (reconnectClient env).attemptsStarted).map (fun k => 2 ^ k)
  ∧ (∀ k, k < 5 → (∀ i, i < k → ∃ m, env.outcome i = .err m) →
      env.outcome k = .unauthorized →
      (reconnectClient env).ending = .sessionExpired
      ∧ (reconnectClient env).attemptsStarted = k + 1
      ∧ .sessionExpiredError ∈ (reconnectClient env).notifs)
  ∧ ((∀ i, i < 5 → ∃ m, env.outcome i = .err m) →
      (reconnectClient env).ending = .exhausted
      ∧ (reconnectClient env).attemptsStarted = 5
      ∧ .terminalFailure ∈ (reconnectClient env).notifs)

/-- What actually happens after exhausting all five attempts: the
terminal notification fires but the `self.clients` entry for the account
is still there — `_reconnect_client` never removes it. -/
def reconnectExhaustSpec (env : ReconnectEnv) : Prop :=
  (reconnectClient env).ending = .exhausted
  ∧ .terminalFailure ∈ (reconnectClient env).notifs
  ∧ (reconnectClient env).clientsHasAfter = true

/-- A reconnection environment in which every attempt fails with an
exception. -/
def envAllAttemptsFail : ReconnectEnv :=
  ⟨some "sess", true, fun _ => true, fun _ => .err "boom"⟩

/-- The failure behaviour claimed for the policy-refresh loop: a failed
query leaves the stored policy unchanged, and over any run the error
notification times are at least 60 s apart pairwise. -/
def refreshFailureSpec (url : String) (st : RefreshState) (now : Nat)
    (o : QueryOutcome) (evs : List (Nat × QueryOutcome))
    (st0 : RefreshState) : Prop :=
  (refreshAccountSettings url st now o).1.settings = st.settings
  ∧ List.Chain' (fun a b => a + 60 ≤ b) (refreshRun url evs st0).2
  ∧ List.Pairwise (fun a b => a + 60 ≤ b) (refreshRun url evs st0).2

/-- Value of a most-significant-first digit list folded onto `a`. -/
def digitsVal (a : Nat) (ds : List Nat) : Nat :=
  List.foldl (fun x d => x * 10 + d) a ds

/-- Input whose first character is not a digit (or empty input): after a
complete number the scanner stops exactly here. -/
def ndHead : List Char → Bool
  | [] => true
  | c :: _ => (digitVal c).isNone

theorem natDigitsAux_zero (fuel : Nat) (acc : List Nat) :
    natDigitsAux fuel 0 acc = acc := by
  cases fuel <;> simp [natDigitsAux]

theorem natDigitsAux_shift (n : Nat) : ∀ (fuel : Nat) (acc : List Nat),
    n ≤ fuel → 0 < n → natDigitsAux fuel n acc = natDigitsAux n n [] ++ acc := by
  induction n using Nat.strong_induction_on with
  | _ n ih =>
    intro fuel acc hfuel hpos
    obtain ⟨f, rfl⟩ : ∃ f, fuel = f + 1 := ⟨fuel - 1, by omega⟩
    obtain ⟨m, rfl⟩ : ∃ m, n = m + 1 := ⟨n - 1, by omega⟩
    have hdiv : (m + 1) / 10 < m + 1 := Nat.div_lt_self (by omega) (by omega)
    rw [show natDigitsAux (f + 1) (m + 1) acc
        = natDigitsAux f ((m + 1) / 10) (((m + 1) % 10) :: acc) by
      simp [natDigitsAux]]
    rw [show natDigitsAux (m + 1) (m + 1) []
        = natDigitsAux m ((m + 1) / 10) [(m + 1) % 10] by
      simp [natDigitsAux]]
    rcases Nat.eq_zero_or_pos ((m + 1) / 10) with hq | hq
    · rw [hq, natDigitsAux_zero, natDigitsAux_zero]
      simp
    · rw [ih _ hdiv f (((m + 1) % 10) :: acc) (by omega) hq,
        ih _ hdiv m [(m + 1) % 10] (by omega) hq, List.append_assoc]
      rfl

theorem digitsVal_natDigitsAux (n : Nat) : ∀ (a : Nat), 0 < n →
    digitsVal a (natDigitsAux n n [])
      = a * 10 ^ (natDigitsAux n n []).length + n := by
  induction n using Nat.strong_induction_on with
  | _ n ih =>
    intro a hpos
    obtain ⟨m, rfl⟩ : ∃ m, n = m + 1 := ⟨n - 1, by omega⟩
    have hdiv : (m + 1) / 10 < m + 1 := Nat.div_lt_self (by omega) (by omega)
    have hmod := Nat.div_add_mod (m + 1) 10
    rw [show natDigitsAux (m + 1) (m + 1) []
        = natDigitsAux m ((m + 1) / 10) [(m + 1) % 10] by
      simp [natDigitsAux]]
    rcases Nat.eq_zero_or_pos ((m + 1) / 10) with hq | hq
    · rw [hq, natDigitsAux_zero]
      simp only [digitsVal, List.foldl, List.length_cons, List.length_nil]
      omega
    · rw [natDigitsAux_shift _ m [(m + 1) % 10] (by omega) hq]
      simp only [digitsVal, List.foldl_append, List.foldl, List.length_append,
        List.length_cons, List.length_nil]
      have hv := ih _ hdiv a hq
      simp only [digitsVal] at hv
      rw [hv, pow_succ, ← mul_assoc]
      generalize a * 10 ^ (natDigitsAux ((m + 1) / 10) ((m + 1) / 10) []).length = Q
      omega

theorem natDigitsAux_digits_lt : ∀ (fuel n : Nat) (acc : List Nat),
    (∀ d ∈ acc, d < 10) → ∀ d ∈ natDigitsAux fuel n acc, d < 10 := by
  intro fuel
  induction fuel with
  | zero => intro n acc hacc; simpa [natDigitsAux] using hacc
  | succ f ihf =>
    intro n acc hacc
    by_cases hn : n = 0
    · simpa [natDigitsAux, hn] using hacc
    · rw [show natDigitsAux (f + 1) n acc
          = natDigitsAux f (n / 10) ((n % 10) :: acc) by simp [natDigitsAux, hn]]
      exact ihf (n / 10) _ (by
        intro d hd
        rcases List.mem_cons.mp hd with h | h
        · omega
        · exact hacc d h)

theorem natDigitsAux_length_le : ∀ (fuel n : Nat) (acc : List Nat),
    acc.length ≤ (natDigitsAux fuel n acc).length := by
  intro fuel
  induction fuel with
  | zero => intro n acc; simp [natDigitsAux]
  | succ f ihf =>
    intro n acc
    by_cases hn : n = 0
    · simp [natDigitsAux, hn]
    · rw [show natDigitsAux (f + 1) n acc
          = natDigitsAux f (n / 10) ((n % 10) :: acc) by simp [natDigitsAux, hn]]
      calc acc.length ≤ ((n % 10 :: acc)).length := by simp
        _ ≤ _ := ihf (n / 10) _

theorem natDigits_ne_nil (n : Nat) : natDigits n ≠ [] := by
  by_cases hn : n = 0
  · simp [natDigits, hn]
  · obtain ⟨m, rfl⟩ : ∃ m, n = m + 1 := ⟨n - 1, by omega⟩
    rw [natDigits, if_neg hn,
      show natDigitsAux (m + 1) (m + 1) []
        = natDigitsAux m ((m + 1) / 10) [(m + 1) % 10] by simp [natDigitsAux]]
    have := natDigitsAux_length_le m ((m + 1) / 10) [(m + 1) % 10]
    intro h
    rw [h] at this
    simp at this

theorem natDigits_digits_lt (n : Nat) : ∀ d ∈ natDigits n, d < 10 := by
  by_cases hn : n = 0
  · simp [natDigits, hn]
  · rw [natDigits, if_neg hn]
    exact natDigitsAux_digits_lt n n [] (by simp)

theorem digitsVal_natDigits (n : Nat) : digitsVal 0 (natDigits n) = n := by
  by_cases hn : n = 0
  · simp [natDigits, hn, digitsVal]
  · rw [natDigits, if_neg hn, digitsVal_natDigitsAux n 0 (by omega)]
    simp

theorem digitVal_digitChar (d : Nat) (h : d < 10) :
    digitVal (digitChar d) = some d := by
  interval_cases d <;> rfl

theorem scanNat_map_digits (ds : List Nat) : ∀ (a : Nat) (rest : List Char),
    (∀ d ∈ ds, d < 10) →
    scanNat (ds.map digitChar ++ rest) a = scanNat rest (digitsVal a ds) := by
  induction ds with
  | nil => intro a rest _; simp [digitsVal]
  | cons d ds ih =>
    intro a rest hds
    have hd : d < 10 := hds d (by simp)
    rw [List.map_cons, List.cons_append,
      show scanNat (digitChar d :: (List.map digitChar ds ++ rest)) a
          = scanNat (List.map digitChar ds ++ rest) (a * 10 + d) by
        rw [scanNat.eq_def]
        simp [digitVal_digitChar d hd],
      ih (a * 10 + d) rest (fun x hx => hds x (by simp [hx]))]
    rfl

theorem scanNat_ndHead (cs : List Char) (a : Nat) (h : ndHead cs = true) :
    scanNat cs a = (a, cs) := by
  cases cs with
  | nil => rfl
  | cons c cs' =>
    simp only [ndHead, Option.isNone_iff_eq_none] at h
    rw [scanNat.eq_def]
    simp [h]

theorem readNat_natChars (n : Nat) (rest : List Char) (h : ndHead rest = true) :
    readNat (natChars n ++ rest) = some (n, rest) := by
  obtain ⟨d, ds, hds⟩ := List.exists_cons_of_ne_nil (natDigits_ne_nil n)
  have hlt := natDigits_digits_lt n
  rw [hds] at hlt
  have hd : d < 10 := hlt d (by simp)
  rw [natChars, hds, List.map_cons, List.cons_append,
    show readNat (digitChar d :: (List.map digitChar ds ++ rest))
        = some (scanNat (List.map digitChar ds ++ rest) d) by
      rw [readNat.eq_def]
      simp [digitVal_digitChar d hd],
    scanNat_map_digits ds d rest (fun x hx => hlt x (by simp [hx])),
    scanNat_ndHead rest _ h]
  have hv : digitsVal d ds = n := by
    have hn := digitsVal_natDigits n
    rw [hds] at hn
    simpa [digitsVal] using hn
  rw [hv]

theorem readStr_quote (rest : List Char) :
    readStr (quoteChar :: rest) = some ([], rest) := by
  rw [readStr.eq_def]
  simp

theorem readStr_escape (e u : Char) (cs : List Char) (h : unescChar e = some u) :
    readStr (backslashChar :: e :: cs)
      = (readStr cs).map (fun p => (u :: p.1, p.2)) := by
  rw [readStr.eq_def]
  simp [quoteChar, backslashChar, h]

theorem readStr_lit (c : Char) (cs : List Char) (h1 : c ≠ quoteChar)
    (h2 : c ≠ backslashChar) :
    readStr (c :: cs) = (readStr cs).map (fun p => (c :: p.1, p.2)) := by
  rw [readStr.eq_def]
  simp [h1, h2]

theorem readStr_escChars (l : List Char) : ∀ (rest : List Char),
    readStr (escChars l ++ (quoteChar :: rest)) = some (l, rest) := by
  induction l with
  | nil => intro rest; simp [escChars, readStr_quote]
  | cons c cs ih =>
    intro rest
    by_cases h1 : c = quoteChar
    · subst h1
      rw [show escChars (quoteChar :: cs)
          = backslashChar :: quoteChar :: escChars cs by rw [escChars.eq_def]; simp]
      rw [List.cons_append, List.cons_append,
        readStr_escape quoteChar quoteChar _ (by simp [unescChar]), ih rest]
      rfl
    · by_cases h2 : c = backslashChar
      · subst h2
        rw [show escChars (backslashChar :: cs)
            = backslashChar :: backslashChar :: escChars cs by
          rw [escChars.eq_def]; simp [quoteChar, backslashChar]]
        rw [List.cons_append, List.cons_append,
          readStr_escape backslashChar backslashChar _
            (by simp [unescChar, quoteChar, backslashChar]), ih rest]
        rfl
      · by_cases h3 : c = '\n'
        · subst h3
          rw [show escChars ('\n' :: cs) = backslashChar :: 'n' :: escChars cs by
            rw [escChars.eq_def]; simp [quoteChar, backslashChar]]
          rw [List.cons_append, List.cons_append,
            readStr_escape 'n' '\n' _ (by simp [unescChar, quoteChar, backslashChar]),
            ih rest]
          rfl
        · by_cases h4 : c = '\t'
          · subst h4
            rw [show escChars ('\t' :: cs) = backslashChar :: 't' :: escChars cs by
              rw [escChars.eq_def]; simp [quoteChar, backslashChar]]
            rw [List.cons_append, List.cons_append,
              readStr_escape 't' '\t' _
                (by simp [unescChar, quoteChar, backslashChar]),
              ih rest]
            rfl
          · by_cases h5 : c = '\r'
            · subst h5
              rw [show escChars ('\r' :: cs) = backslashChar :: 'r' :: escChars cs by
                rw [escChars.eq_def]; simp [quoteChar, backslashChar]]
              rw [List.cons_append, List.cons_append,
                readStr_escape 'r' '\r' _
                  (by simp [unescChar, quoteChar, backslashChar]),
                ih rest]
              rfl
            · rw [show escChars (c :: cs) = c :: escChars cs by
                rw [escChars.eq_def]; simp [h1, h2, h3, h4, h5]]
              rw [List.cons_append, readStr_lit c _ h1 h2, ih rest]
              rfl

theorem readVal_null (f : Nat) (r : List Char) :
    readVal (f + 1) ('n' :: 'u' :: 'l' :: 'l' :: r) = some (.jnull, r) := by
  rw [readVal.eq_def]
  simp

theorem readVal_true (f : Nat) (r : List Char) :
    readVal (f + 1) ('t' :: 'r' :: 'u' :: 'e' :: r) = some (.jbool true, r) := by
  rw [readVal.eq_def]
  simp

theorem readVal_false (f : Nat) (r : List Char) :
    readVal (f + 1) ('f' :: 'a' :: 'l' :: 's' :: 'e' :: r)
      = some (.jbool false, r) := by
  rw [readVal.eq_def]
  simp

theorem readVal_quote (f : Nat) (cs : List Char) :
    readVal (f + 1) (quoteChar :: cs)
      = (readStr cs).map (fun p => (.jstr (String.mk p.1), p.2)) := by
  rw [readVal.eq_def]
  simp [quoteChar]

theorem readVal_minus (f : Nat) (cs : List Char) :
    readVal (f + 1) ('-' :: cs)
      = (readNat cs).map (fun p => (Json.jnum (-(p.1 : Int)), p.2)) := by
  rw [readVal.eq_def]
  simp [quoteChar, digitVal]

theorem readVal_digit (f : Nat) (c : Char) (cs : List Char)
    (h : (digitVal c).isSome = true) :
    readVal (f + 1) (c :: cs)
      = (readNat (c :: cs)).map (fun p => (Json.jnum (p.1 : Int), p.2)) := by
  have hn : c ≠ 'n' := by intro e; subst e; simp [digitVal] at h
  have ht : c ≠ 't' := by intro e; subst e; simp [digitVal] at h
  have hf : c ≠ 'f' := by intro e; subst e; simp [digitVal] at h
  have hq : c ≠ quoteChar := by
    intro e; subst e; simp [digitVal, quoteChar] at h
  have hm : c ≠ '-' := by intro e; subst e; simp [digitVal] at h
  rw [readVal.eq_def]
  simp [hn, ht, hf, hq, hm, h]

theorem readVal_lbrack (f : Nat) (d : Char) (r : List Char) :
    readVal (f + 1) (lbrackChar :: d :: r)
      = if d = rbrackChar then some (.jarr .nil, r) else readElems f (d :: r) := by
  rw [readVal.eq_def]
  simp [quoteChar, digitVal, lbrackChar, lbraceChar]

theorem readVal_lbrace (f : Nat) (d : Char) (r : List Char) :
    readVal (f + 1) (lbraceChar :: d :: r)
      = if d = rbraceChar then some (.jobj .nil, r) else readMembers f (d :: r) := by
  rw [readVal.eq_def]
  simp [quoteChar, digitVal, lbrackChar, lbraceChar]

/-- Every serialized value is nonempty and cannot begin with the closing
bracket character. -/
theorem dumpChars_head (j : Json) :
    ∃ c t, dumpChars j = c :: t ∧ c ≠ rbrackChar := by
  cases j with
  | jnull => exact ⟨'n', _, rfl, by decide⟩
  | jbool b =>
    cases b
    · exact ⟨'f', _, rfl, by decide⟩
    · exact ⟨'t', _, rfl, by decide⟩
  | jnum n =>
    by_cases hn : n < 0
    · exact ⟨'-', natChars n.natAbs,
        by rw [show dumpChars (.jnum n) = intChars n from rfl, intChars,
          if_pos hn], by decide⟩
    · obtain ⟨d, ds, hds⟩ := List.exists_cons_of_ne_nil (natDigits_ne_nil n.natAbs)
      have hd : d < 10 := natDigits_digits_lt n.natAbs d (by rw [hds]; simp)
      refine ⟨digitChar d, List.map digitChar ds, ?_, ?_⟩
      · rw [show dumpChars (.jnum n) = intChars n from rfl, intChars, if_neg hn,
          natChars, hds, List.map_cons]
      · interval_cases d <;> decide
  | jstr s => exact ⟨quoteChar, _, rfl, by decide⟩
  | jarr xs =>
    cases xs
    · exact ⟨lbrackChar, _, rfl, by decide⟩
    · exact ⟨lbrackChar, _, rfl, by decide⟩
  | jobj kvs =>
    cases kvs
    · exact ⟨lbraceChar, _, rfl, by decide⟩
    · exact ⟨lbraceChar, _, rfl, by decide⟩

theorem ndHead_dumpElemsRest (xs : JsonList) (rest : List Char) :
    ndHead (dumpElemsRest xs ++ rest) = true := by
  cases xs <;> rw [dumpElemsRest.eq_def] <;> simp [ndHead, digitVal] <;> decide

theorem ndHead_dumpMembersRest (kvs : JsonKVs) (rest : List Char) :
    ndHead (dumpMembersRest kvs ++ rest) = true := by
  cases kvs <;> rw [dumpMembersRest.eq_def] <;> simp [ndHead, digitVal] <;> decide

theorem dumpChars_arr_cons (x : Json) (xs : JsonList) :
    dumpChars (.jarr (.cons x xs))
      = lbrackChar :: (dumpChars x ++ dumpElemsRest xs) := by
  rw [dumpChars.eq_def]

theorem dumpChars_obj_cons (k : String) (v : Json) (kvs : JsonKVs) :
    dumpChars (.jobj (.cons k v kvs))
      = lbraceChar :: (dumpMember k v ++ dumpMembersRest kvs) := by
  rw [dumpChars.eq_def, dumpMember]

theorem dumpElemsRest_cons (x : Json) (xs : JsonList) :
    dumpElemsRest (.cons x xs) = ',' :: (dumpChars x ++ dumpElemsRest xs) := by
  rw [dumpElemsRest.eq_def]

theorem dumpMembersRest_cons (k : String) (v : Json) (kvs : JsonKVs) :
    dumpMembersRest (.cons k v kvs)
      = ',' :: (dumpMember k v ++ dumpMembersRest kvs) := by
  rw [dumpMembersRest.eq_def, dumpMember]

mutual

/-- Reading back a serialized value consumes exactly the serialized
characters and recovers the value, for any fuel at least its size, as
long as the residue does not begin with a digit. -/
theorem readVal_dumpChars (j : Json) : ∀ (f : Nat) (rest : List Char),
    jsize j ≤ f → ndHead rest = true →
    readVal f (dumpChars j ++ rest) = some (j, rest) :=
  match j with
  | .jnull => by
    intro f rest hf hnd
    simp only [jsize] at hf
    obtain ⟨f', rfl⟩ : ∃ f', f = f' + 1 := ⟨f - 1, by omega⟩
    rw [show dumpChars .jnull ++ rest = 'n' :: 'u' :: 'l' :: 'l' :: rest from rfl,
      readVal_null]
  | .jbool b => by
    intro f rest hf hnd
    simp only [jsize] at hf
    obtain ⟨f', rfl⟩ : ∃ f', f = f' + 1 := ⟨f - 1, by omega⟩
    cases b
    · rw [show dumpChars (.jbool false) ++ rest
          = 'f' :: 'a' :: 'l' :: 's' :: 'e' :: rest from rfl, readVal_false]
    · rw [show dumpChars (.jbool true) ++ rest
          = 't' :: 'r' :: 'u' :: 'e' :: rest from rfl, readVal_true]
  | .jnum n => by
    intro f rest hf hnd
    simp only [jsize] at hf
    obtain ⟨f', rfl⟩ : ∃ f', f = f' + 1 := ⟨f - 1, by omega⟩
    by_cases hn : n < 0
    · rw [show dumpChars (.jnum n) = intChars n from rfl, intChars, if_pos hn,
        List.cons_append, readVal_minus, readNat_natChars n.natAbs rest hnd]
      simp only [Option.map_some']
      have he : -(n.natAbs : Int) = n := by omega
      rw [he]
    · obtain ⟨d, ds, hds⟩ :=
        List.exists_cons_of_ne_nil (natDigits_ne_nil n.natAbs)
      have hd : d < 10 := natDigits_digits_lt n.natAbs d (by rw [hds]; simp)
      have hsome : (digitVal (digitChar d)).isSome = true := by
        rw [digitVal_digitChar d hd]; rfl
      have hshape : natChars n.natAbs ++ rest
          = digitChar d :: (List.map digitChar ds ++ rest) := by
        rw [natChars, hds, List.map_cons, List.cons_append]
      rw [show dumpChars (.jnum n) = intChars n from rfl, intChars, if_neg hn,
        hshape, readVal_digit f' (digitChar d) _ hsome, ← hshape,
        readNat_natChars n.natAbs rest hnd]
      simp only [Option.map_some']
      have he : (n.natAbs : Int) = n := by omega
      rw [he]
  | .jstr s => by
    intro f rest hf hnd
    simp only [jsize] at hf
    obtain ⟨f', rfl⟩ : ∃ f', f = f' + 1 := ⟨f - 1, by omega⟩
    obtain ⟨l⟩ := s
    rw [show dumpChars (.jstr ⟨l⟩) ++ rest
        = quoteChar :: (escChars l ++ (quoteChar :: rest)) by
      rw [show dumpChars (.jstr ⟨l⟩)
          = quoteChar :: (escChars l ++ [quoteChar]) from rfl]
      simp, readVal_quote, readStr_escChars l rest]
    rfl
  | .jarr .nil => by
    intro f rest hf hnd
    simp only [jsize, elsize] at hf
    obtain ⟨f', rfl⟩ : ∃ f', f = f' + 1 := ⟨f - 1, by omega⟩
    rw [show dumpChars (.jarr .nil) ++ rest
        = lbrackChar :: rbrackChar :: rest from rfl, readVal_lbrack,
      if_pos rfl]
  | .jarr (.cons x xs) => by
    intro f rest hf hnd
    simp only [jsize, elsize] at hf
    obtain ⟨f', rfl⟩ : ∃ f', f = f' + 1 := ⟨f - 1, by omega⟩
    obtain ⟨c, t, hct, hcr⟩ := dumpChars_head x
    rw [dumpChars_arr_cons, List.cons_append, List.append_assoc, hct,
      List.cons_append, readVal_lbrack, if_neg hcr, ← List.cons_append,
      ← hct]
    exact readElems_dumpChars x xs f' rest (by omega) hnd
  | .jobj .nil => by
    intro f rest hf hnd
    simp only [jsize, kvsize] at hf
    obtain ⟨f', rfl⟩ : ∃ f', f = f' + 1 := ⟨f - 1, by omega⟩
    rw [show dumpChars (.jobj .nil) ++ rest
        = lbraceChar :: rbraceChar :: rest from rfl, readVal_lbrace,
      if_pos rfl]
  | .jobj (.cons k v kvs) => by
    intro f rest hf hnd
    simp only [jsize, kvsize] at hf
    obtain ⟨f', rfl⟩ : ∃ f', f = f' + 1 := ⟨f - 1, by omega⟩
    rw [dumpChars_obj_cons, List.cons_append, List.append_assoc, dumpMember,
      List.cons_append, readVal_lbrace, if_neg (by decide),
      ← List.cons_append, ← dumpMember]
    exact readMembers_dumpChars k v kvs f' rest (by omega) hnd
termination_by sizeOf j
decreasing_by
  all_goals simp_arith

/-- Companion statement for the element tail of a nonempty array. -/
theorem readElems_dumpChars (x : Json) (xs : JsonList) :
    ∀ (f : Nat) (rest : List Char),
    1 + jsize x + elsize xs ≤ f → ndHead rest = true →
    readElems f (dumpChars x ++ (dumpElemsRest xs ++ rest))
      = some (.jarr (.cons x xs), rest) :=
  match xs with
  | .nil => by
    intro f rest hf hnd
    obtain ⟨f', rfl⟩ : ∃ f', f = f' + 1 := ⟨f - 1, by omega⟩
    simp only [readElems]
    rw [readVal_dumpChars x f' (dumpElemsRest .nil ++ rest) (by omega)
      (ndHead_dumpElemsRest .nil rest)]
    rw [show dumpElemsRest .nil ++ rest = rbrackChar :: rest from rfl]
    simp
  | .cons y ys => by
    intro f rest hf hnd
    simp only [elsize] at hf
    obtain ⟨f', rfl⟩ : ∃ f', f = f' + 1 := ⟨f - 1, by omega⟩
    simp only [readElems]
    rw [readVal_dumpChars x f' (dumpElemsRest (.cons y ys) ++ rest) (by omega)
      (ndHead_dumpElemsRest (.cons y ys) rest)]
    rw [dumpElemsRest_cons, List.cons_append, List.append_assoc]
    have hy := readElems_dumpChars y ys f' rest (by omega) hnd
    simp only [hy]
    have h1 : ¬(',' = rbrackChar) := by decide
    simp [h1]
termination_by sizeOf x + sizeOf xs
decreasing_by
  all_goals simp_arith

/-- Companion statement for the member tail of a nonempty object. -/
theorem readMembers_dumpChars (k : String) (v : Json) (kvs : JsonKVs) :
    ∀ (f : Nat) (rest : List Char),
    1 + jsize v + kvsize kvs ≤ f → ndHead rest = true →
    readMembers f (dumpMember k v ++ (dumpMembersRest kvs ++ rest))
      = some (.jobj (.cons k v kvs), rest) :=
  match kvs with
  | .nil => by
    intro f rest hf hnd
    obtain ⟨f', rfl⟩ : ∃ f', f = f' + 1 := ⟨f - 1, by omega⟩
    obtain ⟨kl⟩ := k
    rw [dumpMember, List.cons_append]
    simp only [readMembers]
    have hshape : (escChars (String.data ⟨kl⟩)
          ++ (quoteChar :: ':' :: dumpChars v)) ++ (dumpMembersRest .nil ++ rest)
        = escChars kl ++ (quoteChar ::
            (':' :: (dumpChars v ++ (dumpMembersRest .nil ++ rest)))) := by
      simp
    rw [hshape]
    simp only [if_pos rfl, readStr_escChars kl]
    rw [readVal_dumpChars v f' (dumpMembersRest .nil ++ rest) (by omega)
      (ndHead_dumpMembersRest .nil rest)]
    rw [show dumpMembersRest .nil ++ rest = rbraceChar :: rest from rfl]
    simp
  | .cons k2 v2 kvs2 => by
    intro f rest hf hnd
    simp only [kvsize] at hf
    obtain ⟨f', rfl⟩ : ∃ f', f = f' + 1 := ⟨f - 1, by omega⟩
    obtain ⟨kl⟩ := k
    rw [dumpMember, List.cons_append]
    simp only [readMembers]
    have hshape : (escChars (String.data ⟨kl⟩)
          ++ (quoteChar :: ':' :: dumpChars v))
            ++ (dumpMembersRest (.cons k2 v2 kvs2) ++ rest)
        = escChars kl ++ (quoteChar :: (':' :: (dumpChars v
            ++ (dumpMembersRest (.cons k2 v2 kvs2) ++ rest)))) := by
      simp
    rw [hshape]
    simp only [if_pos rfl, readStr_escChars kl]
    rw [readVal_dumpChars v f' (dumpMembersRest (.cons k2 v2 kvs2) ++ rest)
      (by omega) (ndHead_dumpMembersRest (.cons k2 v2 kvs2) rest)]
    rw [dumpMembersRest_cons, List.cons_append, List.append_assoc]
    have h2 := readMembers_dumpChars k2 v2 kvs2 f' rest (by omega) hnd
    simp only [h2]
    have h1 : ¬(',' = rbraceChar) := by decide
    simp [h1]
termination_by sizeOf v + sizeOf kvs
decreasing_by
  all_goals simp_arith

end

mutual

/-- The fuel measure of a value is bounded by its serialized length. -/
theorem jsize_le_dump_length (j : Json) : jsize j ≤ (dumpChars j).length :=
  match j with
  | .jnull => by simp [jsize, dumpChars]
  | .jbool b => by cases b <;> simp [jsize, dumpChars]
  | .jnum n => by
    have h := natDigits_ne_nil n.natAbs
    have hl : 0 < (natDigits n.natAbs).length := List.length_pos.mpr h
    by_cases hn : n < 0 <;>
      simp [jsize, show dumpChars (.jnum n) = intChars n from rfl, intChars,
        hn, natChars] <;> omega
  | .jstr s => by
    rw [show dumpChars (.jstr s)
        = quoteChar :: (escChars s.data ++ [quoteChar]) from rfl]
    simp [jsize]
  | .jarr .nil => by simp [jsize, elsize, dumpChars]
  | .jarr (.cons x xs) => by
    have h1 := jsize_le_dump_length x
    have h2 := elsize_le_dump_length xs
    rw [dumpChars_arr_cons]
    simp only [jsize, elsize, List.length_cons, List.length_append]
    omega
  | .jobj .nil => by simp [jsize, kvsize, dumpChars]
  | .jobj (.cons k v kvs) => by
    have h1 := jsize_le_dump_length v
    have h2 := kvsize_le_dump_length kvs
    rw [dumpChars_obj_cons]
    simp only [jsize, kvsize, dumpMember, List.length_cons, List.length_append]
    omega
termination_by sizeOf j
decreasing_by
  all_goals simp_arith

/-- Companion bound for the serialized element tail. -/
theorem elsize_le_dump_length (xs : JsonList) :
    1 + elsize xs ≤ (dumpElemsRest xs).length :=
  match xs with
  | .nil => by simp [elsize, dumpElemsRest]
  | .cons y ys => by
    have h1 := jsize_le_dump_length y
    have h2 := elsize_le_dump_length ys
    rw [dumpElemsRest_cons]
    simp only [elsize, List.length_cons, List.length_append]
    omega
termination_by sizeOf xs
decreasing_by
  all_goals simp_arith

/-- Companion bound for the serialized member tail. -/
theorem kvsize_le_dump_length (kvs : JsonKVs) :
    1 + kvsize kvs ≤ (dumpMembersRest kvs).length :=
  match kvs with
  | .nil => by simp [kvsize, dumpMembersRest]
  | .cons k2 v2 kvs2 => by
    have h1 := jsize_le_dump_length v2
    have h2 := kvsize_le_dump_length kvs2
    rw [dumpMembersRest_cons]
    simp only [kvsize, dumpMember, List.length_cons, List.length_append]
    omega
termination_by sizeOf kvs
decreasing_by
  all_goals simp_arith

end

/-- Reading `json.loads` undoes `json.dumps` on every JSON value: the round-trip
guarantee the Overflow Store relies on. -/
theorem Json.loads_dumps (j : Json) : Json.loads (Json.dumps j) = some j := by
  have h1 : jsize j ≤ (dumpChars j).length + 1 :=
    le_trans (jsize_le_dump_length j) (by omega)
  have h2 := readVal_dumpChars j ((dumpChars j).length + 1) [] h1 rfl
  rw [List.append_nil] at h2
  rw [Json.loads, Json.dumps]
  rw [show (String.mk (dumpChars j)).data = dumpChars j from rfl, h2]

theorem natOfStr_strOfNat (n : Nat) : natOfStr (strOfNat n) = some n := by
  have h := readNat_natChars n [] rfl
  rw [List.append_nil] at h
  rw [natOfStr, strOfNat, show (String.mk (natChars n)).data = natChars n from rfl,
    h]

/-- C9: Overflow Store round-trip — write then read returns the written
payload (id order, FIFO), and delete with the returned id removes that
entry from subsequent reads while leaving the others intact. -/
theorem overflow_store_roundtrip (q : PQueue) (p : Json)
    (hwf : q.WF) (hlen : q.rows.length < 100) :
    overflowRoundtripSpec q p := by
  obtain ⟨hchain, hlt⟩ := hwf
  have hrows : ((q.write p).2).rows = q.rows ++ [(q.nextId, Json.dumps p)] := rfl
  have htake : (q.rows ++ [(q.nextId, Json.dumps p)]).take 100
      = q.rows ++ [(q.nextId, Json.dumps p)] := by
    apply List.take_of_length_le
    simp
    omega
  have htakeq : q.rows.take 100 = q.rows :=
    List.take_of_length_le (by omega)
  refine ⟨?_, ⟨?_, ?_⟩, ?_, ?_⟩
  · rw [show ((q.write p).2).read_all
        = ((q.rows ++ [(q.nextId, Json.dumps p)]).take 100).filterMap
            (fun r => (Json.loads r.2).map (fun j => (strOfNat r.1, j)))
        from rfl, htake, List.filterMap_append]
    rw [show PQueue.read_all q
        = (q.rows.take 100).filterMap
            (fun r => (Json.loads r.2).map (fun j => (strOfNat r.1, j)))
        from rfl, htakeq]
    simp [Json.loads_dumps, PQueue.write]
  · rw [hrows]
    rw [List.chain'_append]
    refine ⟨hchain, List.chain'_singleton _, ?_⟩
    intro x hx y hy
    simp only [List.head?_cons, Option.mem_def, Option.some.injEq] at hy
    subst hy
    obtain ⟨h9, hx9⟩ := List.mem_getLast?_eq_getLast hx
    subst hx9
    exact hlt _ (List.getLast_mem h9)
  · rw [hrows]
    intro r hr
    rcases List.mem_append.mp hr with h | h
    · have := hlt r h
      simp [PQueue.write]
      omega
    · simp only [List.mem_singleton] at h
      subst h
      simp [PQueue.write]
  · have hd : ((q.write p).2).delete (q.write p).1
        = ⟨q.nextId + 1, (q.rows ++ [(q.nextId, Json.dumps p)]).filter
            (fun r => decide (r.1 ≠ q.nextId))⟩ := by
      show PQueue.delete ⟨q.nextId + 1, q.rows ++ [(q.nextId, Json.dumps p)]⟩
        (strOfNat q.nextId) = _
      rw [PQueue.delete.eq_def, natOfStr_strOfNat]
    rw [hd]
    show (q.rows ++ [(q.nextId, Json.dumps p)]).filter
        (fun r => decide (r.1 ≠ q.nextId)) = q.rows
    rw [List.filter_append]
    have h1 : q.rows.filter (fun r => decide (r.1 ≠ q.nextId)) = q.rows := by
      apply List.filter_eq_self.mpr
      intro r hr
      have := hlt r hr
      simp
      omega
    rw [h1]
    simp
  · have hd : ((q.write p).2).delete (q.write p).1
        = ⟨q.nextId + 1, (q.rows ++ [(q.nextId, Json.dumps p)]).filter
            (fun r => decide (r.1 ≠ q.nextId))⟩ := by
      show PQueue.delete ⟨q.nextId + 1, q.rows ++ [(q.nextId, Json.dumps p)]⟩
        (strOfNat q.nextId) = _
      rw [PQueue.delete.eq_def, natOfStr_strOfNat]
    rw [hd]
    have h2 : (q.rows ++ [(q.nextId, Json.dumps p)]).filter
        (fun r => decide (r.1 ≠ q.nextId)) = q.rows := by
      rw [List.filter_append]
      have h1 : q.rows.filter (fun r => decide (r.1 ≠ q.nextId)) = q.rows := by
        apply List.filter_eq_self.mpr
        intro r hr
        have := hlt r hr
        simp
        omega
      rw [h1]
      simp
    rw [PQueue.read_all, h2, PQueue.read_all]

/-- C9 witness: the round-trip evaluated on an empty store and a concrete
message payload. -/
theorem overflow_store_roundtrip_witness :
    PQueue.empty.WF ∧ PQueue.empty.rows.length < 100
    ∧ overflowRoundtripSpec PQueue.empty
        (.jobj (.cons "account_id" (.jstr "a1")
          (.cons "peer_id" (.jstr "42")
          (.cons "text" (.jstr "hi there")
          (.cons "timestamp" (.jnum 1700000000000) .nil))))) :=
  ⟨by decide, by decide,
    overflow_store_roundtrip PQueue.empty _ (by decide) (by decide)⟩

/-- C10: in the needs-second-factor branch with no password supplied,
`verify_code` returns needs_2fa and leaves the whole service state —
PendingLogin included — unchanged; no Session and no credential string
appear. -/
theorem verify_code_needs2fa_keeps_state (st : SvcState)
    (accountId : String) (p : PendingLogin) (env : VerifyEnv)
    (hpending : lookupA st.pendingLogins accountId = some p)
    (hsign : env.signIn = .needsSecondFactor) :
    verifyCode st accountId none env = .ok (.needs2fa, st) := by
  rw [verifyCode, hpending, hsign]

/-- C10 witness: the branch evaluated on a concrete state holding one
pending login. -/
theorem verify_code_needs2fa_keeps_state_witness :
    verifyCode ⟨[], [], [("acct", ⟨"p", "h"⟩)], []⟩ "acct" none
        ⟨.needsSecondFactor, none, "sess", "Name", none, 7⟩
      = .ok (.needs2fa, ⟨[], [], [("acct", ⟨"p", "h"⟩)], []⟩) :=
  verify_code_needs2fa_keeps_state _ "acct" ⟨"p", "h"⟩ _ (by decide) rfl

/-- C2 counterexample: a line whose JSON parses to a non-object (for
example the line "5") produces no response at all — the AttributeError
raised by request.get("method") is caught by neither handler — refuting
"for every non-empty input line the dispatcher emits exactly one
response". -/
theorem process_request_non_object_no_response :
    processRequest .nonObjectJson (fun _ => .ok .jnull) = none := rfl

/-- C2 (amended): for every line that fails to parse or parses to a JSON
object, the dispatcher emits exactly one response with the claimed
shapes; a line parsing to non-object JSON emits none. -/
theorem process_request_one_response (line : ParsedLine)
    (exec : String → ExecOutcome) (h : line ≠ .nonObjectJson) :
    processRequestShapeSpec line exec := by
  cases line with
  | notJson =>
    refine ⟨rfl, fun _ => rfl, ?_, ?_, ?_⟩ <;> intro r
    · intro m he
      exact absurd he (by simp)
    · intro he
      exact absurd he (by simp)
    · intro m msg he
      exact absurd he (by simp)
  | nonObjectJson => exact absurd rfl h
  | object r =>
    refine ⟨?_, by simp, ?_, ?_, ?_⟩
    · rw [processRequest]
      cases hm : r.method with
      | none => rfl
      | some m =>
        by_cases hping : m = "ping"
        · simp [hping]
        · by_cases hk : m ∈ knownMethods
          · cases hx : exec m <;> simp [hping, hk, hx]
          · simp [hping, hk]
    · intro r2 m he hm hping hknown
      injection he with he2
      subst he2
      have hk : ¬(m ∈ knownMethods) := by simpa using hknown
      simp [processRequest, hm, hping, hk]
    · intro r2 he hm
      injection he with he2
      subst he2
      rw [processRequest, hm]
    · intro r2 m msg he hm hknown hx
      injection he with he2
      subst he2
      have hping : ¬(m = "ping") := by
        intro e
        subst e
        exact absurd hknown (by decide)
      have hk : m ∈ knownMethods := by simpa using hknown
      simp [processRequest, hm, hping, hk, hx]

/-- C2 witness: the amended shapes evaluated on the request
`{"method": "bogus", "id": 2}` with a trivial execution oracle. -/
theorem process_request_one_response_witness :
    processRequestShapeSpec (.object ⟨some "bogus", .jnum 2⟩)
      (fun _ => .ok .jnull) :=
  process_request_one_response (.object ⟨some "bogus", .jnum 2⟩)
    (fun _ => .ok .jnull) (by decide)

theorem ensureSyncWorkers_pq (s : SyncState) :
    (ensureSyncWorkers s).pq = s.pq := by
  rw [ensureSyncWorkers]
  split_ifs <;> rfl

theorem ensureSyncWorkers_queue_isSome (s : SyncState)
    (hurl : ¬(s.convexUrl = "")) (h : s.syncQueue.isSome ∨ s.loopRunning = true) :
    ((ensureSyncWorkers s).syncQueue).isSome = true := by
  rw [ensureSyncWorkers]
  rw [if_neg hurl]
  by_cases h2 : s.syncQueue.isSome ∧ s.workerTasks ≠ 0
  · rw [if_pos h2]
    exact h2.1
  · rw [if_neg h2]
    by_cases h3 : s.loopRunning = true
    · rw [if_neg (not_not_intro h3)]
      rfl
    · rw [if_pos h3]
      rcases h with hh | hh
      · exact hh
      · exact absurd hh h3

theorem enqueueSyncMessage_eq_some (s : SyncState) (p : Json) (q : List Json)
    (hq : (ensureSyncWorkers s).syncQueue = some q) :
    enqueueSyncMessage s p =
      if q.length < 2000 then
        (true, { ensureSyncWorkers s with syncQueue := some (q ++ [p]) },
          false)
      else if 5 ≤ s.now - s.lastPersistentQueueNoticeTs then
        (true, { ensureSyncWorkers s with
          pq := ((ensureSyncWorkers s).pq.write p).2
          lastPersistentQueueNoticeTs := s.now }, true)
      else
        (true, { ensureSyncWorkers s with
          pq := ((ensureSyncWorkers s).pq.write p).2 }, false) := by
  rw [enqueueSyncMessage, hq]

/-- C1: with a remote endpoint configured and the sync queue available
(already created, or creatable because a loop is running),
`enqueue_sync_message` returns True and the payload lands either in the
bounded queue or durably in the Overflow Store before returning. -/
theorem enqueue_never_discards (s : SyncState) (p : Json)
    (hurl : ¬(s.convexUrl = ""))
    (h : s.syncQueue.isSome ∨ s.loopRunning = true) :
    enqueueNeverDiscardsSpec s p := by
  have hq := ensureSyncWorkers_queue_isSome s hurl h
  have hpq := ensureSyncWorkers_pq s
  rcases hqe : (ensureSyncWorkers s).syncQueue with _ | q0
  · rw [hqe] at hq
    exact absurd hq (by simp)
  · rw [enqueueNeverDiscardsSpec, enqueueSyncMessage_eq_some s p q0 hqe]
    constructor
    · by_cases hfull : q0.length < 2000
      · rw [if_pos hfull]
      · rw [if_neg hfull]
        by_cases hn : 5 ≤ s.now - s.lastPersistentQueueNoticeTs
        · rw [if_pos hn]
        · rw [if_neg hn]
    · intro q hqq
      rw [hqe] at hqq
      injection hqq with he
      subst he
      constructor
      · intro hroom
        rw [if_pos hroom]
        exact ⟨rfl, hpq⟩
      · intro hfull
        rw [if_neg hfull]
        by_cases hn : 5 ≤ s.now - s.lastPersistentQueueNoticeTs
        · rw [if_pos hn]
          refine ⟨?_, rfl⟩
          show (((ensureSyncWorkers s).pq.write p).2).rows = _
          rw [hpq]
          rfl
        · rw [if_neg hn]
          refine ⟨?_, rfl⟩
          show (((ensureSyncWorkers s).pq.write p).2).rows = _
          rw [hpq]
          rfl

/-- C1 witness: an enqueue into a fresh pipeline state with a configured
endpoint and a running loop. -/
theorem enqueue_never_discards_witness :
    ¬(("http://convex" : String) = "")
    ∧ enqueueNeverDiscardsSpec
        ⟨"http://convex", true, none, 0, false, PQueue.empty, 0, 0⟩
        (.jobj (.cons "peer_id" (.jstr "42") .nil)) :=
  ⟨by decide,
    enqueue_never_discards
      ⟨"http://convex", true, none, 0, false, PQueue.empty, 0, 0⟩
      (.jobj (.cons "peer_id" (.jstr "42") .nil)) (by decide) (Or.inr rfl)⟩

theorem syncGo_sentBatch (oracle : Nat → PostResult) (filtered : List Json) :
    ∀ (r attempt reqs : Nat) (sl : List Nat),
    (syncGo oracle filtered attempt r reqs sl).sentBatch = some filtered := by
  intro r
  induction r with
  | zero => intro attempt reqs sl; rfl
  | succ r ih =>
    intro attempt reqs sl
    rw [syncGo]
    cases oracle attempt with
    | status code body =>
      dsimp only
      by_cases h200 : code = 200
      · rw [if_pos h200]
      · rw [if_neg h200]
        by_cases hr : 500 ≤ code ∧ attempt < 2
        · rw [if_pos hr]
          exact ih (attempt + 1) (reqs + 1) (sl ++ [2 ^ attempt])
        · rw [if_neg hr]
    | timeout =>
      dsimp only
      by_cases hlt : attempt < 2
      · rw [if_pos hlt]
        exact ih (attempt + 1) (reqs + 1) (sl ++ [2 ^ attempt])
      · rw [if_neg hlt]
    | exn m => rfl

theorem syncGo_requests_le (oracle : Nat → PostResult) (filtered : List Json) :
    ∀ (r attempt reqs : Nat) (sl : List Nat),
    (syncGo oracle filtered attempt r reqs sl).requests ≤ reqs + r := by
  intro r
  induction r with
  | zero => intro attempt reqs sl; simp [syncGo]
  | succ r ih =>
    intro attempt reqs sl
    rw [syncGo]
    cases oracle attempt with
    | status code body =>
      dsimp only
      by_cases h200 : code = 200
      · rw [if_pos h200]
        simp
      · rw [if_neg h200]
        by_cases hr : 500 ≤ code ∧ attempt < 2
        · rw [if_pos hr]
          calc (syncGo oracle filtered (attempt + 1) r (reqs + 1)
                (sl ++ [2 ^ attempt])).requests
              ≤ reqs + 1 + r := ih (attempt + 1) (reqs + 1) (sl ++ [2 ^ attempt])
            _ ≤ reqs + (r + 1) := by omega
        · rw [if_neg hr]
          simp
    | timeout =>
      dsimp only
      by_cases hlt : attempt < 2
      · rw [if_pos hlt]
        calc (syncGo oracle filtered (attempt + 1) r (reqs + 1)
              (sl ++ [2 ^ attempt])).requests
            ≤ reqs + 1 + r := ih (attempt + 1) (reqs + 1) (sl ++ [2 ^ attempt])
          _ ≤ reqs + (r + 1) := by omega
      · rw [if_neg hlt]
        simp
    | exn m =>
      simp [syncGo]

theorem syncGo_step_retry (oracle : Nat → PostResult) (filtered : List Json)
    (attempt r reqs : Nat) (sl : List Nat)
    (hretry : PostResult.retryable (oracle attempt) = true)
    (hlt : attempt < 2) :
    syncGo oracle filtered attempt (r + 1) reqs sl
      = syncGo oracle filtered (attempt + 1) r (reqs + 1)
          (sl ++ [2 ^ attempt]) := by
  rw [syncGo]
  cases ho : oracle attempt with
  | status code body =>
    rw [ho] at hretry
    simp only [PostResult.retryable, decide_eq_true_eq] at hretry
    dsimp only
    rw [if_neg (by omega : ¬(code = 200)), if_pos ⟨hretry, hlt⟩]
  | timeout =>
    dsimp only
    rw [if_pos hlt]
  | exn m =>
    rw [ho] at hretry
    simp [PostResult.retryable] at hretry

theorem syncGo_step_200 (oracle : Nat → PostResult) (filtered : List Json)
    (attempt r reqs : Nat) (sl : List Nat)
    (h200 : PostResult.is200 (oracle attempt) = true) :
    ∃ notifs, syncGo oracle filtered attempt (r + 1) reqs sl
      = ⟨reqs + 1, sl, notifs, some filtered⟩ := by
  rw [syncGo]
  cases ho : oracle attempt with
  | status code body =>
    rw [ho] at h200
    simp only [PostResult.is200, decide_eq_true_eq] at h200
    dsimp only
    rw [if_pos h200]
    exact ⟨_, rfl⟩
  | timeout =>
    rw [ho] at h200
    simp [PostResult.is200] at h200
  | exn m =>
    rw [ho] at h200
    simp [PostResult.is200] at h200

theorem syncGo_step_noretry (oracle : Nat → PostResult) (filtered : List Json)
    (attempt r reqs : Nat) (sl : List Nat)
    (hn200 : PostResult.is200 (oracle attempt) = false)
    (hstop : PostResult.retryable (oracle attempt) = false ∨ ¬(attempt < 2)) :
    ∃ n, SyncNotif.isError n = true
      ∧ syncGo oracle filtered attempt (r + 1) reqs sl
          = ⟨reqs + 1, sl, [n], some filtered⟩ := by
  rw [syncGo]
  cases ho : oracle attempt with
  | status code body =>
    rw [ho] at hn200 hstop
    simp only [PostResult.is200, decide_eq_true_eq,
      decide_eq_false_iff_not] at hn200
    simp only [PostResult.retryable, decide_eq_false_iff_not] at hstop
    dsimp only
    rw [if_neg hn200, if_neg (by tauto : ¬(500 ≤ code ∧ attempt < 2))]
    exact ⟨.convexError code, rfl, rfl⟩
  | timeout =>
    rw [ho] at hstop
    simp only [PostResult.retryable] at hstop
    have hge : ¬(attempt < 2) := by tauto
    dsimp only
    rw [if_neg hge]
    exact ⟨.timeoutError, rfl, rfl⟩
  | exn m => exact ⟨.syncExn m, rfl, rfl⟩

theorem syncMessages_eq_go (url : String) (msgs : List Json)
    (oracle : Nat → PostResult) (hurl : ¬(url = ""))
    (hfil : ¬(syncFiltered msgs = [])) :
    syncMessages url msgs oracle
      = syncGo oracle (syncFiltered msgs) 0 3 0 [] := by
  rw [syncMessages, if_neg hurl,
    if_neg (by simpa [List.isEmpty_iff] using hfil)]

/-- C5: the delivery function never transmits a payload whose peer id is
the reserved system-notices id, and makes no HTTP request at all when
every payload is filtered out — on the per-item worker path as well. -/
theorem sync_drops_system_notices (url : String) (msgs : List Json)
    (oracle : Nat → PostResult) :
    syncSystemNoticesSpec url msgs oracle := by
  have hforall : ∀ b, (syncMessages url msgs oracle).sentBatch = some b →
      ∀ m ∈ b, ¬(m.get "peer_id" = some (.jstr "777000")) := by
    intro b hb m hm
    by_cases hurl : url = ""
    · rw [syncMessages, if_pos hurl] at hb
      exact absurd hb (by simp)
    · by_cases hfil : syncFiltered msgs = []
      · rw [syncMessages, if_neg hurl,
          if_pos (by simpa [List.isEmpty_iff] using hfil)] at hb
        exact absurd hb (by simp)
      · rw [syncMessages_eq_go url msgs oracle hurl hfil,
          syncGo_sentBatch oracle (syncFiltered msgs) 3 0 0 []] at hb
        injection hb with hb2
        subst hb2
        have := List.mem_filter.mp hm
        simpa using this.2
  have hall : ∀ (ms : List Json),
      (∀ m ∈ ms, m.get "peer_id" = some (.jstr "777000")) →
      (syncMessages url ms oracle).requests = 0
      ∧ (syncMessages url ms oracle).sentBatch = none := by
    intro ms hms
    by_cases hurl : url = ""
    · rw [syncMessages, if_pos hurl]
      exact ⟨rfl, rfl⟩
    · have hfil : syncFiltered ms = [] := by
        rw [syncFiltered, List.filter_eq_nil]
        intro m hm
        simp [hms m hm]
      rw [syncMessages, if_neg hurl,
        if_pos (by simpa [List.isEmpty_iff] using hfil)]
      exact ⟨rfl, rfl⟩
  refine ⟨hforall, hall msgs, ?_⟩
  intro item hitem
  exact (hall [item] (by simpa using hitem)).1

/-- C5 witness: a system-notices payload is never posted, on the batch
path and on the single-item worker path. -/
theorem sync_drops_system_notices_witness :
    (syncMessages "http://convex" [.jobj (.cons "peer_id" (.jstr "777000") .nil)]
        (fun _ => .timeout)).requests = 0
    ∧ (syncMessages "http://convex"
        [.jobj (.cons "peer_id" (.jstr "777000") .nil)]
        (fun _ => .timeout)).sentBatch = none :=
  (sync_drops_system_notices "http://convex"
    [.jobj (.cons "peer_id" (.jstr "777000") .nil)] (fun _ => .timeout)).2.1
    (by decide)

/-- C6: delivery retries only on 5xx or timeout, with at most 2 extra
attempts and backoff 2^attempt; other non-2xx outcomes or exhausted
retries emit exactly one error notification and drop the batch; a 200
stops immediately. -/
theorem sync_retry_discipline (url : String) (msgs : List Json)
    (oracle : Nat → PostResult) (hurl : ¬(url = ""))
    (hfil : ¬(syncFiltered msgs = [])) :
    syncRetrySpec url msgs oracle := by
  have heq := syncMessages_eq_go url msgs oracle hurl hfil
  refine ⟨?_, ?_, ?_, ?_, ?_, ?_, ?_⟩
  · rw [heq]
    have := syncGo_requests_le oracle (syncFiltered msgs) 3 0 0 []
    omega
  · intro h200
    obtain ⟨ns, hs⟩ := syncGo_step_200 oracle (syncFiltered msgs) 0 2 0 [] h200
    rw [heq, hs]
    exact ⟨rfl, rfl⟩
  · intro hnr hn200
    obtain ⟨n, hn, hs⟩ :=
      syncGo_step_noretry oracle (syncFiltered msgs) 0 2 0 [] hn200 (Or.inl hnr)
    rw [heq, hs]
    refine ⟨rfl, rfl, ?_⟩
    simp [errCount, hn]
  · intro hr0 h200
    obtain ⟨ns, hs⟩ := syncGo_step_200 oracle (syncFiltered msgs) 1 1 1 [1] h200
    rw [heq, syncGo_step_retry oracle (syncFiltered msgs) 0 2 0 [] hr0
      (by omega)]
    simp only [pow_zero, List.nil_append] at hs ⊢
    rw [hs]
    exact ⟨rfl, rfl⟩
  · intro hr0 hnr1 hn200
    obtain ⟨n, hn, hs⟩ := syncGo_step_noretry oracle (syncFiltered msgs) 1 1 1
      [1] hn200 (Or.inl hnr1)
    rw [heq, syncGo_step_retry oracle (syncFiltered msgs) 0 2 0 [] hr0
      (by omega)]
    simp only [pow_zero, List.nil_append] at hs ⊢
    rw [hs]
    refine ⟨rfl, rfl, ?_⟩
    simp [errCount, hn]
  · intro hr0 hr1 h200
    obtain ⟨ns, hs⟩ := syncGo_step_200 oracle (syncFiltered msgs) 2 0 2 [1, 2]
      h200
    norm_num at hs
    rw [heq, syncGo_step_retry oracle (syncFiltered msgs) 0 2 0 [] hr0
      (by omega), syncGo_step_retry oracle (syncFiltered msgs) 1 1 1
      ([] ++ [2 ^ 0]) hr1 (by omega)]
    norm_num
    rw [hs]
    exact ⟨rfl, rfl⟩
  · intro hr0 hr1 hn200
    obtain ⟨n, hn, hs⟩ := syncGo_step_noretry oracle (syncFiltered msgs) 2 0 2
      [1, 2] hn200 (Or.inr (by omega))
    norm_num at hs
    rw [heq, syncGo_step_retry oracle (syncFiltered msgs) 0 2 0 [] hr0
      (by omega), syncGo_step_retry oracle (syncFiltered msgs) 1 1 1
      ([] ++ [2 ^ 0]) hr1 (by omega)]
    norm_num
    rw [hs]
    refine ⟨rfl, rfl, ?_⟩
    simp [errCount, hn]

/-- C6 witness: the retry discipline evaluated on a nonempty payload list
against an always-timing-out endpoint. -/
theorem sync_retry_discipline_witness :
    ¬(("http://convex" : String) = "")
    ∧ ¬(syncFiltered [.jobj (.cons "peer_id" (.jstr "42") .nil)] = [])
    ∧ syncRetrySpec "http://convex" [.jobj (.cons "peer_id" (.jstr "42") .nil)]
        (fun _ => .timeout) :=
  ⟨by decide, by decide,
    sync_retry_discipline "http://convex"
      [.jobj (.cons "peer_id" (.jstr "42") .nil)] (fun _ => .timeout)
      (by decide) (by decide)⟩

set_option maxRecDepth 100000 in
/-- C3: under the private-only policy the two-stage event filter accepts
a private non-bot message, rejects a group message, rejects any
bot-involved private message (including "sent via bot"), and mirrors an
event only when both filter stages pass. -/
theorem two_stage_filter : twoStageFilterSpec :=
  ⟨by decide, by decide, by decide, by decide⟩

theorem reconnectGo_attempts_le (env : ReconnectEnv) :
    ∀ (r attempt : Nat) (d : List Nat) (n : List ReconnectNotif),
    (reconnectGo env attempt r d n).attemptsStarted ≤ attempt + r := by
  intro r
  induction r with
  | zero => intro attempt d n; simp [reconnectGo]
  | succ r ih =>
    intro attempt d n
    rw [reconnectGo]
    by_cases hp : env.present attempt = true
    · rw [if_neg (not_not_intro hp)]
      cases env.outcome attempt with
      | ok => dsimp only; omega
      | unauthorized => dsimp only; omega
      | err m =>
        dsimp only
        calc (reconnectGo env (attempt + 1) r (d ++ [2 ^ attempt])
              (n ++ [.attemptFailed attempt])).attemptsStarted
            ≤ attempt + 1 + r := ih (attempt + 1) _ _
          _ ≤ attempt + (r + 1) := by omega
    · rw [if_pos hp]
      simp

theorem reconnectGo_delays (env : ReconnectEnv)
    (hp : ∀ n, env.present n = true) :
    ∀ (r attempt : Nat) (d : List Nat) (n : List ReconnectNotif),
    d = (List.range attempt).map (fun k => 2 ^ k) →
    (reconnectGo env attempt r d n).delays
      = (List.range (reconnectGo env attempt r d n).attemptsStarted).map
          (fun k => 2 ^ k) := by
  intro r
  induction r with
  | zero =>
    intro attempt d n hd
    simpa [reconnectGo] using hd
  | succ r ih =>
    intro attempt d n hd
    rw [reconnectGo, if_neg (not_not_intro (hp attempt))]
    have hd2 : d ++ [2 ^ attempt]
        = (List.range (attempt + 1)).map (fun k => 2 ^ k) := by
      rw [List.range_succ, List.map_append, hd]
      rfl
    cases env.outcome attempt with
    | ok =>
      dsimp only
      rw [hd2]
    | unauthorized =>
      dsimp only
      rw [hd2]
    | err m =>
      dsimp only
      exact ih (attempt + 1) _ _ hd2

theorem reconnectGo_unauthorized (env : ReconnectEnv)
    (hp : ∀ n, env.present n = true) :
    ∀ (k r attempt : Nat) (d : List Nat) (n : List ReconnectNotif),
    k < r → (∀ i, i < k → ∃ m, env.outcome (attempt + i) = .err m) →
    env.outcome (attempt + k) = .unauthorized →
    (reconnectGo env attempt r d n).ending = .sessionExpired
    ∧ (reconnectGo env attempt r d n).attemptsStarted = attempt + k + 1
    ∧ .sessionExpiredError ∈ (reconnectGo env attempt r d n).notifs := by
  intro k
  induction k with
  | zero =>
    intro r attempt d n hkr herr hu
    obtain ⟨r2, rfl⟩ : ∃ r2, r = r2 + 1 := ⟨r - 1, by omega⟩
    rw [Nat.add_zero] at hu
    rw [reconnectGo, if_neg (not_not_intro (hp attempt)), hu]
    exact ⟨rfl, rfl, by simp⟩
  | succ k ih =>
    intro r attempt d n hkr herr hu
    obtain ⟨r2, rfl⟩ : ∃ r2, r = r2 + 1 := ⟨r - 1, by omega⟩
    obtain ⟨m, hm⟩ := herr 0 (by omega)
    rw [Nat.add_zero] at hm
    rw [reconnectGo, if_neg (not_not_intro (hp attempt)), hm]
    dsimp only
    have herr2 : ∀ i, i < k → ∃ m2, env.outcome (attempt + 1 + i) = .err m2 := by
      intro i hi
      obtain ⟨m2, hm2⟩ := herr (i + 1) (by omega)
      exact ⟨m2, by rwa [show attempt + 1 + i = attempt + (i + 1) by omega]⟩
    have hu2 : env.outcome (attempt + 1 + k) = .unauthorized := by
      rwa [show attempt + 1 + k = attempt + (k + 1) by omega]
    obtain ⟨he, hs, hmem⟩ := ih r2 (attempt + 1) (d ++ [2 ^ attempt])
      (n ++ [.attemptFailed attempt]) (by omega) herr2 hu2
    exact ⟨he, by omega, hmem⟩

theorem reconnectGo_exhausted (env : ReconnectEnv)
    (hp : ∀ n, env.present n = true) :
    ∀ (r attempt : Nat) (d : List Nat) (n : List ReconnectNotif),
    (∀ i, i < r → ∃ m, env.outcome (attempt + i) = .err m) →
    (reconnectGo env attempt r d n).ending = .exhausted
    ∧ (reconnectGo env attempt r d n).attemptsStarted = attempt + r
    ∧ .terminalFailure ∈ (reconnectGo env attempt r d n).notifs
    ∧ (reconnectGo env attempt r d n).clientsHasAfter = true := by
  intro r
  induction r with
  | zero =>
    intro attempt d n _
    exact ⟨rfl, rfl, by simp [reconnectGo], rfl⟩
  | succ r ih =>
    intro attempt d n herr
    obtain ⟨m, hm⟩ := herr 0 (by omega)
    rw [Nat.add_zero] at hm
    rw [reconnectGo, if_neg (not_not_intro (hp attempt)), hm]
    dsimp only
    have herr2 : ∀ i, i < r → ∃ m2, env.outcome (attempt + 1 + i) = .err m2 := by
      intro i hi
      obtain ⟨m2, hm2⟩ := herr (i + 1) (by omega)
      exact ⟨m2, by rwa [show attempt + 1 + i = attempt + (i + 1) by omega]⟩
    obtain ⟨he, hs, hmem, hc⟩ := ih (attempt + 1) (d ++ [2 ^ attempt])
      (n ++ [.attemptFailed attempt]) herr2
    exact ⟨he, by omega, hmem, hc⟩

/-- C4: reconnection makes at most 5 attempts with delay 2^n before
attempt n, aborts immediately with "session expired" when the account is
reported unauthorized, and emits the terminal notification after five
failures. -/
theorem reconnect_bounded (env : ReconnectEnv) (s : String)
    (hs : env.sessionString = some s)
    (hp : ∀ n, env.present n = true) :
    reconnectBoundedSpec env := by
  have hgo : reconnectClient env = reconnectGo env 0 5 [] [] := by
    rw [reconnectClient, hs]
  refine ⟨?_, ?_, ?_, ?_⟩
  · rw [hgo]
    have := reconnectGo_attempts_le env 5 0 [] []
    omega
  · rw [hgo]
    exact reconnectGo_delays env hp 5 0 [] [] rfl
  · intro k hk herr hu
    rw [hgo]
    have h0 : ∀ i, i < k → ∃ m, env.outcome (0 + i) = .err m := by
      intro i hi
      simpa using herr i hi
    have hu0 : env.outcome (0 + k) = .unauthorized := by simpa using hu
    obtain ⟨he, hst, hmem⟩ :=
      reconnectGo_unauthorized env hp k 5 0 [] [] hk h0 hu0
    exact ⟨he, by omega, hmem⟩
  · intro herr
    rw [hgo]
    have h0 : ∀ i, i < 5 → ∃ m, env.outcome (0 + i) = .err m := by
      intro i hi
      simpa using herr i hi
    obtain ⟨he, hst, hmem, _⟩ := reconnectGo_exhausted env hp 5 0 [] [] h0
    exact ⟨he, by omega, hmem⟩

/-- C4 witness: the bounded-reconnection properties evaluated on an
environment in which every attempt raises. -/
theorem reconnect_bounded_witness :
    envAllAttemptsFail.sessionString = some "sess"
    ∧ (∀ n, envAllAttemptsFail.present n = true)
    ∧ reconnectBoundedSpec envAllAttemptsFail :=
  ⟨rfl, fun _ => rfl,
    reconnect_bounded envAllAttemptsFail "sess" rfl (fun _ => rfl)⟩

/-- C7 counterexample: with a saved credential and five failing attempts,
`_reconnect_client` ends exhausted yet `self.clients` still holds the
account — the claim that the session map no longer contains the entry is
false. -/
theorem reconnect_exhaust_entry_remains :
    (reconnectClient envAllAttemptsFail).ending = .exhausted
    ∧ ¬((reconnectClient envAllAttemptsFail).clientsHasAfter = false) := by
  decide

/-- C7 (amended): after exhausting all attempts the terminal failure
notification is emitted, but the session map still contains the
account's client entry; the Session is not removed. -/
theorem reconnect_exhaust_keeps_client (env : ReconnectEnv) (s : String)
    (hs : env.sessionString = some s)
    (hp : ∀ n, env.present n = true)
    (herr : ∀ i, i < 5 → ∃ m, env.outcome i = .err m) :
    reconnectExhaustSpec env := by
  have hgo : reconnectClient env = reconnectGo env 0 5 [] [] := by
    rw [reconnectClient, hs]
  have h0 : ∀ i, i < 5 → ∃ m, env.outcome (0 + i) = .err m := by
    intro i hi
    simpa using herr i hi
  obtain ⟨he, _, hmem, hc⟩ := reconnectGo_exhausted env hp 5 0 [] [] h0
  exact ⟨by rw [hgo]; exact he, by rw [hgo]; exact hmem, by rw [hgo]; exact hc⟩

/-- C7 witness: the amended statement evaluated on the all-failures
environment. -/
theorem reconnect_exhaust_keeps_client_witness :
    envAllAttemptsFail.sessionString = some "sess"
    ∧ reconnectExhaustSpec envAllAttemptsFail :=
  ⟨rfl, reconnect_exhaust_keeps_client envAllAttemptsFail "sess" rfl
    (fun _ => rfl) (fun i _ => ⟨"boom", rfl⟩)⟩

theorem refresh_step_lastErrTs (url : String) (st : RefreshState)
    (now : Nat) (o : QueryOutcome) :
    ((refreshAccountSettings url st now o).2 = true →
      (refreshAccountSettings url st now o).1.lastErrTs = now
      ∧ st.lastErrTs + 60 ≤ now)
    ∧ ((refreshAccountSettings url st now o).2 = false →
      (refreshAccountSettings url st now o).1.lastErrTs = st.lastErrTs) := by
  rw [refreshAccountSettings.eq_def]
  by_cases hurl : url = ""
  · rw [if_pos hurl]
    exact ⟨fun h => absurd h (by simp), fun _ => rfl⟩
  · rw [if_neg hurl]
    have herr : (refreshErrorPath st now).2 = true →
        (refreshErrorPath st now).1.lastErrTs = now
        ∧ st.lastErrTs + 60 ≤ now := by
      rw [refreshErrorPath]
      by_cases hw : 60 ≤ now - st.lastErrTs
      · rw [if_pos hw]
        exact fun _ => ⟨rfl, by omega⟩
      · rw [if_neg hw]
        exact fun h => absurd h (by simp)
    have herr2 : (refreshErrorPath st now).2 = false →
        (refreshErrorPath st now).1.lastErrTs = st.lastErrTs := by
      rw [refreshErrorPath]
      by_cases hw : 60 ≤ now - st.lastErrTs
      · rw [if_pos hw]
        exact fun h => absurd h (by simp)
      · rw [if_neg hw]
        exact fun _ => rfl
    cases o with
    | exn => exact ⟨herr, herr2⟩
    | status code body =>
      dsimp only
      by_cases hc : code ≠ 200
      · rw [if_pos hc]
        exact ⟨herr, herr2⟩
      · rw [if_neg hc]
        cases body with
        | none => exact ⟨herr, herr2⟩
        | some b =>
          dsimp only
          cases extractSettingsValue b with
          | none => exact ⟨fun h => absurd h (by simp), fun _ => rfl⟩
          | some v =>
            dsimp only
            by_cases hv : v.isObj = true
            · rw [if_pos hv]
              exact ⟨fun h => absurd h (by simp), fun _ => rfl⟩
            · rw [if_neg hv]
              exact ⟨fun h => absurd h (by simp), fun _ => rfl⟩

theorem refresh_failed_keeps_settings (url : String) (st : RefreshState)
    (now : Nat) (o : QueryOutcome) (h : o.failed = true) :
    (refreshAccountSettings url st now o).1.settings = st.settings := by
  rw [refreshAccountSettings.eq_def]
  by_cases hurl : url = ""
  · rw [if_pos hurl]
  · rw [if_neg hurl]
    have herr : (refreshErrorPath st now).1.settings = st.settings := by
      rw [refreshErrorPath]
      by_cases hw : 60 ≤ now - st.lastErrTs
      · rw [if_pos hw]
      · rw [if_neg hw]
    cases o with
    | exn => exact herr
    | status code body =>
      rw [QueryOutcome.failed] at h
      dsimp only
      by_cases hc : code ≠ 200
      · rw [if_pos hc]
        exact herr
      · rw [if_neg hc]
        cases body with
        | none => exact herr
        | some b =>
          simp only [hc, Option.isNone_some, Bool.or_false,
            decide_eq_true_eq] at h

theorem refreshRun_spaced (url : String) :
    ∀ (evs : List (Nat × QueryOutcome)) (st : RefreshState),
    List.Chain' (fun a b => a + 60 ≤ b) (refreshRun url evs st).2
    ∧ (∀ t ∈ (refreshRun url evs st).2, st.lastErrTs + 60 ≤ t) := by
  intro evs
  induction evs with
  | nil => intro st; exact ⟨List.chain'_nil, by simp [refreshRun]⟩
  | cons ev evs ih =>
    intro st
    obtain ⟨t, o⟩ := ev
    have hstep := refresh_step_lastErrTs url st t o
    rw [refreshRun]
    by_cases hemit : (refreshAccountSettings url st t o).2 = true
    · obtain ⟨hlast, hbound⟩ := hstep.1 hemit
      obtain ⟨ihc, ihb⟩ := ih (refreshAccountSettings url st t o).1
      rw [if_pos hemit]
      constructor
      · rw [List.singleton_append]
        rw [List.chain'_cons']
        constructor
        · intro y hy
          have hmem := List.mem_of_mem_head? hy
          have := ihb y hmem
          omega
        · exact ihc
      · intro u hu
        rw [List.singleton_append] at hu
        rcases List.mem_cons.mp hu with h | h
        · omega
        · have := ihb u h
          omega
    · have hlast := hstep.2 (by simpa using hemit)
      obtain ⟨ihc, ihb⟩ := ih (refreshAccountSettings url st t o).1
      rw [if_neg hemit]
      refine ⟨by simpa using ihc, ?_⟩
      intro u hu
      rw [List.nil_append] at hu
      have := ihb u hu
      omega

/-- C8: a failed policy-refresh query (non-200, malformed body, or
exception) keeps the prior AccountPolicy, and across a run the
refresh-error notifications are at least 60 seconds apart. -/
theorem refresh_failure_keeps_policy (url : String) (st : RefreshState)
    (now : Nat) (o : QueryOutcome) (evs : List (Nat × QueryOutcome))
    (st0 : RefreshState) (h : o.failed = true) :
    refreshFailureSpec url st now o evs st0 := by
  have hs := refreshRun_spaced url evs st0
  refine ⟨refresh_failed_keeps_settings url st now o h, hs.1, ?_⟩
  exact (@List.chain'_iff_pairwise _ _
    ⟨fun a b c hab hbc => by omega⟩ _).mp hs.1

/-- C8 witness: a failing query on a concrete state and a concrete run
with repeated failures. -/
theorem refresh_failure_keeps_policy_witness :
    QueryOutcome.failed .exn = true
    ∧ refreshFailureSpec "http://convex" ⟨some (.jobj .nil), 0⟩ 100 .exn
        [(100, .exn), (130, .exn), (200, .exn)] ⟨none, 0⟩ :=
  ⟨by decide,
    refresh_failure_keeps_policy "http://convex" ⟨some (.jobj .nil), 0⟩ 100
      .exn [(100, .exn), (130, .exn), (200, .exn)] ⟨none, 0⟩ (by decide)⟩

end TG
